import Mathlib

/-!
# Sensor data pipeline of the system-monitor applet

A shallow embedding of `modules/__init__.js` (the shared `ModulePartPrototype`
formatter, `Module.init`, `BaseDataProvider`, `SensorDataProvider`) and of the
thermal `DataProvider` of `modules/thermal.js`, followed by theorems about them.

Conventions of the embedding:

* JavaScript numbers that carry sensor samples, byte counts and thresholds are
  exact rationals (`ℚ`); the rounding of the arithmetic on IEEE doubles is not
  modelled.
* The two library operations of the formatter whose result that rounding can
  move by a whole step, the floor of the quotient of two logarithms and
  `toFixed(1)`, are the fields of a `NumberLib` that the formatter takes as a
  parameter; `exactLib` is the library of exact arithmetic.
* Counters (`minIndex`, `maxIndex`, `notifications`) are `Option ℤ`, where
  `none` stands for a value that is not a number (`undefined`, and the `NaN`
  that `--undefined` produces).
* Mutable object state is passed explicitly as a `Provider` record.
* A thrown `TypeError` is an `Except.error`.
* A module's regular expression `dataMatcher` is a `DataMatcher`: the function
  from a line to the number parsed from its first capture group. The thermal
  matcher and the two regular expressions of the thermal `parseSensorLine` are
  implemented on lists of characters.
-/

namespace SystemMonitor

/-! ## Settings and provider state -/

/-- The settings the pipeline reads by name (`this.settings.graphSteps`,
`this.getSetting("Mode")`, `this.getSetting("WarningValue")`, ...). -/
structure Settings where
  graphSteps : Nat
  interval : ℚ
  mode : String
  warning : Bool
  warningTime : Int
  warningValue : ℚ
  byteUnit : String
  rateUnit : String

/-- The value of `this.min` / `this.max`: `undefined` for a provider that does
not track extrema, `null` before the first sample, or a number. -/
inductive Bound where
  | undefined : Bound
  | null : Bound
  | num (v : ℚ) : Bound
  deriving DecidableEq, Repr

namespace Bound

/-- JavaScript `!b`. -/
def falsy : Bound → Bool
  | undefined => true
  | null => true
  | num v => decide (v = 0)

/-- JavaScript `b > v` for a number `v` (`null` converts to `0`, `undefined` to `NaN`). -/
def gt : Bound → ℚ → Bool
  | undefined, _ => false
  | null, v => decide (0 > v)
  | num m, v => decide (m > v)

/-- JavaScript `b < v` for a number `v` (`null` converts to `0`, `undefined` to `NaN`). -/
def lt : Bound → ℚ → Bool
  | undefined, _ => false
  | null, v => decide (0 < v)
  | num m, v => decide (m < v)

end Bound

/-- The mutable fields of a `SensorDataProvider` (with the `colorRefs` of the
thermal provider). -/
structure Provider where
  settings : Settings
  data : Nat → Option ℚ
  history : List (List ℚ)
  sensors : List Nat
  sensorNames : List String
  colorRefs : List (Option Nat)
  min : Bound
  max : Bound
  minIndex : Option Int
  maxIndex : Option Int
  unavailable : Bool
  notifications : Option Int

/-! ## `BaseDataProvider.updateHistory` and `saveData` -/

/-- The loop `while(history.length > cap) history.shift();`. -/
def trim {α : Type} (cap : Nat) : List α → List α
  | [] => []
  | x :: xs => if (x :: xs).length > cap then trim cap xs else x :: xs

/-- The two guarded assignments at the end of `updateHistory`, on the tracker
fields only; `len` is `history.length` after push and trim. -/
def trackPush (p : Provider) (len : Nat) (value : ℚ) : Provider :=
  let p1 : Provider :=
    if p.min ≠ Bound.undefined ∧ (p.min.falsy = true ∨ p.min.gt value = true) then
      { p with min := Bound.num value, minIndex := some (len : Int) }
    else p
  if p1.max ≠ Bound.undefined ∧ (p1.max.falsy = true ∨ p1.max.lt value = true) then
    { p1 with max := Bound.num value, maxIndex := some (len : Int) }
  else p1

/-- `BaseDataProvider.updateHistory(this.history[name], value)`: nothing happens
when `this.history[name]` is `undefined`. -/
def updateHistory (p : Provider) (name : Nat) (value : ℚ) : Provider :=
  match p.history[name]? with
  | none => p
  | some h =>
    let h1 := trim (p.settings.graphSteps + 2) (h ++ [value])
    trackPush { p with history := p.history.set name h1 } h1.length value

/-- `BaseDataProvider.saveData(name, value)`. -/
def saveData (p : Provider) (name : Nat) (value : ℚ) : Provider :=
  updateHistory { p with data := fun k => if k = name then some value else p.data k } name value

/-! ## `BaseDataProvider.updateMinMax` -/

/-- The inner loop of the rescan for the minimum over one series; `acc` is
`(this.min, this.minIndex)` and `j` the loop index. -/
def scanMinFrom : Nat → List ℚ → Bound × Int → Bound × Int
  | _, [], acc => acc
  | j, value :: rest, acc =>
    scanMinFrom (j + 1) rest
      (if acc.1 = Bound.null ∨ acc.1.gt value = true then (Bound.num value, (j : Int)) else acc)

/-- The rescan for the minimum: `this.min = null; this.minIndex = 0;` and the
double loop over `this.history`. -/
def rescanMin (history : List (List ℚ)) : Bound × Int :=
  history.foldl (fun acc h => scanMinFrom 0 h acc) (Bound.null, 0)

/-- The inner loop of the rescan for the maximum over one series. -/
def scanMaxFrom : Nat → List ℚ → Bound × Int → Bound × Int
  | _, [], acc => acc
  | j, value :: rest, acc =>
    scanMaxFrom (j + 1) rest
      (if acc.1.lt value = true then (Bound.num value, (j : Int)) else acc)

/-- The rescan for the maximum: `this.max = 1; this.maxIndex = 0;` and the
double loop over `this.history`. -/
def rescanMax (history : List (List ℚ)) : Bound × Int :=
  history.foldl (fun acc h => scanMaxFrom 0 h acc) (Bound.num 1, 0)

/-- The test `--counter <= 0` on the already decremented counter (`NaN <= 0` is false). -/
def leZero : Option Int → Bool
  | none => false
  | some k => decide (k ≤ 0)

/-- `BaseDataProvider.updateMinMax()`. -/
def updateMinMax (p : Provider) : Provider :=
  let p1 : Provider :=
    if p.min ≠ Bound.undefined then
      let k := p.minIndex.map (fun x => x - 1)
      if leZero k = true then
        { p with min := (rescanMin p.history).1, minIndex := some (rescanMin p.history).2 }
      else { p with minIndex := k }
    else p
  if p1.max ≠ Bound.undefined then
    let k := p1.maxIndex.map (fun x => x - 1)
    if leZero k = true then
      { p1 with max := (rescanMax p1.history).1, maxIndex := some (rescanMax p1.history).2 }
    else { p1 with maxIndex := k }
  else p1

/-! ## `BaseDataProvider.checkWarning` -/

/-- What `checkWarning` hands to `this.notify`: the summary, the threshold that
is formatted into the body, and the number of seconds formatted into the body. -/
structure Notification where
  summary : String
  warningValue : ℚ
  seconds : ℚ

/-- `BaseDataProvider.checkWarning(value, body)` as the thermal provider calls
it (`index` is `undefined`, so `this.notifications` is a single counter). The
second component is the notification fired by this call, if any. -/
def checkWarning (p : Provider) (value : ℚ) : Provider × Option Notification :=
  if value ≥ p.settings.warningValue then
    let n := p.notifications.map (fun x => x - 1)
    let p1 : Provider := { p with notifications := n }
    if n = some 0 then
      (p1, some { summary := "Warning", warningValue := p.settings.warningValue,
                  seconds := (p.settings.warningTime : ℚ) * p.settings.interval / 1000 })
    else (p1, none)
  else ({ p with notifications := some p.settings.warningTime }, none)

/-- The thermal `onSettingsChanged`, on the countdown only:
`this.notifications = this.settings.thermalWarningTime` when warnings are on. -/
def onSettingsChanged (p : Provider) : Provider :=
  if p.settings.warning = true then { p with notifications := some p.settings.warningTime } else p

/-- Feed the values of consecutive ticks to `checkWarning`; the result lists,
tick by tick, whether a notification was fired. -/
def warningTicks : Provider → List ℚ → List Bool
  | _, [] => []
  | p, v :: vs => (checkWarning p v).2.isSome :: warningTicks (checkWarning p v).1 vs

/-! ## Sensor lines: matchers of the thermal module -/

/-- A thrown JavaScript error, or a state the numeric model does not cover. -/
inductive JSError where
  | typeError : JSError
  | nonNumeric : JSError
  deriving DecidableEq, Repr

/-- A module's `dataMatcher`, a regular expression whose first group captures a
decimal number. `run line` is `parseFloat(line.match(dataMatcher)[1])`, and
`none` when `line.match(dataMatcher)` is `null`. A number can only be parsed from
captured text that holds a digit, which is recorded in `digit`. -/
structure DataMatcher where
  run : String → Option ℚ
  digit : ∀ (l : String) (q : ℚ), run l = some q → ∃ c ∈ l.data, c.isDigit = true

/-- The value of a decimal digit string. -/
def digitsValue (ds : List Char) : Nat :=
  ds.foldl (fun n c => 10 * n + (c.toNat - 48)) 0

/-- The match of `([+-]?\d+\.\d+)\xb0C` anchored at the head of `cs`, as the
parsed number. -/
def thermalMatchAt (cs : List Char) : Option ℚ :=
  let signed : Bool × List Char :=
    match cs with
    | [] => (false, [])
    | a :: r => if a = '+' then (false, r) else if a = '-' then (true, r) else (false, a :: r)
  let ip := signed.2.takeWhile Char.isDigit
  if ip = [] then none
  else
    match signed.2.dropWhile Char.isDigit with
    | [] => none
    | dot :: r2 =>
      if dot = '.' then
        let fp := r2.takeWhile Char.isDigit
        if fp = [] then none
        else
          match r2.dropWhile Char.isDigit with
          | deg :: c :: _ =>
            if deg = '°' ∧ c = 'C' then
              let q : ℚ := (digitsValue ip : ℚ) + (digitsValue fp : ℚ) / (10 : ℚ) ^ fp.length
              some (if signed.1 = true then -q else q)
            else none
          | _ => none
      else none

/-- The leftmost match of the thermal `dataMatcher` in `cs`. -/
def thermalMatch : List Char → Option ℚ
  | [] => none
  | c :: cs =>
    match thermalMatchAt (c :: cs) with
    | some q => some q
    | none => thermalMatch cs

/-- The thermal `dataMatcher: /([+-]?\d+\.\d+)\xb0C/` with `parseFloat` of its group. -/
def thermalDataMatcher : DataMatcher where
  run := fun l => thermalMatch l.data
  digit := by
    intro l q h
    have main : ∀ cs : List Char, thermalMatch cs = some q → ∃ d ∈ cs, d.isDigit = true := by
      intro cs
      induction cs with
      | nil => intro h0; simp [thermalMatch] at h0
      | cons c cs ih =>
        intro h0
        unfold thermalMatch at h0
        cases hm : thermalMatchAt (c :: cs) with
        | none =>
          rw [hm] at h0
          obtain ⟨d, hd, hd2⟩ := ih h0
          exact ⟨d, List.mem_cons_of_mem _ hd, hd2⟩
        | some q1 =>
          have key : ∀ (tl : List Char), (∀ x ∈ tl, x ∈ c :: cs) →
              tl.takeWhile Char.isDigit ≠ [] → ∃ d ∈ c :: cs, d.isDigit = true := by
            intro tl hsub hne
            obtain ⟨d, hd⟩ := List.exists_mem_of_ne_nil _ hne
            exact ⟨d, hsub d ((List.takeWhile_sublist _).subset hd), List.mem_takeWhile_imp hd⟩
          unfold thermalMatchAt at hm
          dsimp only at hm
          by_cases hne : List.takeWhile Char.isDigit
              (if c = '+' then (false, cs) else if c = '-' then (true, cs)
                else (false, c :: cs)).2 = []
          · rw [if_pos hne] at hm
            exact absurd hm (by simp)
          · refine key _ ?_ hne
            intro x hx
            by_cases h1 : c = '+'
            · rw [if_pos h1] at hx
              exact List.mem_cons_of_mem _ hx
            · rw [if_neg h1] at hx
              by_cases h2 : c = '-'
              · rw [if_pos h2] at hx
                exact List.mem_cons_of_mem _ hx
              · rw [if_neg h2] at hx
                exact hx
    exact main l.data h

/-- JavaScript `\s`. -/
def isJSSpace (c : Char) : Bool :=
  c = '\t' || c = '\n' || c = '\u000b' || c = '\u000c' || c = '\r' || c = ' '
    || c = '\u00a0' || c = '\u1680' || (decide ('\u2000' ≤ c) && decide (c ≤ '\u200a'))
    || c = '\u2028' || c = '\u2029' || c = '\u202f' || c = '\u205f' || c = '\u3000'
    || c = '\ufeff'

/-- The match of `core\s*(\d)` (case-insensitive) anchored at the head of `cs`,
as the value of the captured digit. -/
def coreMatchAt (cs : List Char) : Option Nat :=
  if (cs.take 4).map Char.toLower = ['c', 'o', 'r', 'e'] then
    match (cs.drop 4).dropWhile isJSSpace with
    | d :: _ => if d.isDigit = true then some (d.toNat - 48) else none
    | [] => none
  else none

/-- The leftmost match of `name.match(/core\s*(\d)/i)`, as `parseInt(coreMatch[1])`. -/
def coreMatch : List Char → Option Nat
  | [] => none
  | c :: cs =>
    match coreMatchAt (c :: cs) with
    | some d => some d
    | none => coreMatch cs

/-- The match `line.match(/[^:]+/)`: the first maximal run of characters other
than a colon, `none` when there is none. -/
def nameMatch (line : String) : Option String :=
  let r := (line.data.dropWhile (fun c => c = ':')).takeWhile (fun c => c ≠ ':')
  if r = [] then none else some (String.mk r)

/-- The thermal `DataProvider.parseSensorLine(line, lineNumber)`; indexing the
`null` of a failed name match throws. -/
def parseSensorLine (p : Provider) (line : String) (lineNumber : Nat) : Except JSError Provider :=
  match nameMatch line with
  | none => Except.error JSError.typeError
  | some name =>
    let ref : Option Nat :=
      match coreMatch name.data with
      | some d => some (d % 4 + 1)
      | none => none
    Except.ok { p with colorRefs := p.colorRefs ++ [ref],
                       sensors := p.sensors ++ [lineNumber],
                       sensorNames := p.sensorNames ++ [name],
                       history := p.history ++ [[]] }

/-! ## `SensorDataProvider.init` and `Module.init` -/

/-- The test `line.substr(0, 8) === "Adapter:"`. -/
def isAdapterLine (line : String) : Bool :=
  line.data.take 8 = "Adapter:".data

/-- Whether `pat` occurs in `cs` as a contiguous block. -/
def hasInfix (pat : List Char) : List Char → Bool
  | [] => pat.isEmpty
  | c :: cs => pat.isPrefixOf (c :: cs) || hasInfix pat cs

/-- The test `line.match(/virtual/i)`. -/
def matchesVirtual (line : String) : Bool :=
  hasInfix "virtual".data (line.data.map Char.toLower)

/-- The value of `inAdapter` after the header test on `line`. -/
def adapterStep (inAdapter : Bool) (line : String) : Bool :=
  if isAdapterLine line = true then
    (if matchesVirtual line = true then false else true)
  else inAdapter

/-- The `for` loop of `SensorDataProvider.init`, from line index `i` on. -/
def initLoop (dm : DataMatcher) : List String → Nat → Bool → Provider → Except JSError Provider
  | [], _, _, p => Except.ok p
  | line :: rest, i, inAdapter, p =>
    if adapterStep inAdapter line = true ∧ (dm.run line).isSome = true then
      match parseSensorLine p line i with
      | Except.error e => Except.error e
      | Except.ok p1 => initLoop dm rest (i + 1) (adapterStep inAdapter line) p1
    else initLoop dm rest (i + 1) (adapterStep inAdapter line) p

/-- The provider as the constructor chain leaves it before the scan: the
prototype's `min: null, max: null`, `data = []`, `history = [[]]`, no sensors. -/
def freshProvider (settings : Settings) : Provider :=
  { settings := settings, data := fun _ => none, history := [[]], sensors := [],
    sensorNames := [], colorRefs := [], min := Bound.null, max := Bound.null,
    minIndex := none, maxIndex := none, unavailable := false, notifications := none }

/-- `SensorDataProvider.init(module, sensorLines)` (through the thermal `init`);
`sensorLines = none` is a falsy argument. -/
def init (settings : Settings) (dm : DataMatcher) (sensorLines : Option (List String)) :
    Except JSError Provider :=
  match sensorLines with
  | none => Except.ok { freshProvider settings with unavailable := true }
  | some lines =>
    match initLoop dm lines 0 false (freshProvider settings) with
    | Except.error e => Except.error e
    | Except.ok p =>
      if p.sensors.length = 0 then Except.ok { p with unavailable := true } else Except.ok p

/-- The part of a `Module` that `Module.init` decides: its provider, the
`unavailable` flag, and whether the menu item, the tooltip and the panel widget
were built. -/
structure Module where
  dataProvider : Provider
  unavailable : Bool
  menuItem : Bool
  tooltip : Bool
  panelWidget : Bool

/-- `Module.init(imports, container, sensorLines)` from the construction of the
data provider on; `hasPanel` is `imports.PanelLabel || imports.BarGraph`. -/
def Module.init (settings : Settings) (dm : DataMatcher) (hasPanel : Bool)
    (sensorLines : Option (List String)) : Except JSError Module :=
  match SystemMonitor.init settings dm sensorLines with
  | Except.error e => Except.error e
  | Except.ok dp =>
    if dp.unavailable = true then
      Except.ok { dataProvider := dp, unavailable := true, menuItem := false,
                  tooltip := false, panelWidget := false }
    else
      Except.ok { dataProvider := dp, unavailable := false, menuItem := true,
                  tooltip := true, panelWidget := hasPanel }

/-! ## `SensorDataProvider.getData` -/

/-- A possibly `null` accumulator as a number (`null` converts to `0`). -/
def toNumber : Option ℚ → ℚ
  | none => 0
  | some v => v

/-- The `if / else if / else if` of the loop body of `getData` on the
accumulator `value` (`none` is `null`). -/
def aggStep (mode : String) (value : Option ℚ) (data : ℚ) : Option ℚ :=
  if (mode = "min" ∧ toNumber value > data) ∨ value = none then some data
  else if mode = "avg" then some (toNumber value + data)
  else if mode = "max" ∧ toNumber value < data then some data
  else value

/-- The `for` loop of `getData` from sensor index `i` on, over the remaining
entries of `this.sensors`. A missing line (`data` is `undefined`) or a line
without a match (`data.match(...)` is `null`) throws a `TypeError`. -/
def getDataLoop (dm : DataMatcher) (result : List String) (mode : String) :
    List Nat → Nat → Provider → Option ℚ → Except JSError (Provider × Option ℚ)
  | [], _, p, value => Except.ok (p, value)
  | s :: rest, i, p, value =>
    match result[s]? with
    | none => Except.error JSError.typeError
    | some line =>
      match dm.run line with
      | none => Except.error JSError.typeError
      | some data =>
        getDataLoop dm result mode rest (i + 1) (saveData p (i + 1) data) (aggStep mode value data)

/-- `SensorDataProvider.getData(result)`. With no sensor at all the source
saves `null` (or `NaN`) as the aggregate, which the numeric model of a series
does not hold: that case is reported as `nonNumeric`. -/
def getData (dm : DataMatcher) (p : Provider) (result : List String) : Except JSError Provider :=
  match getDataLoop dm result p.settings.mode p.sensors 0 p none with
  | Except.error e => Except.error e
  | Except.ok (p1, value) =>
    match value with
    | none => Except.error JSError.nonNumeric
    | some v =>
      let value := if p.settings.mode = "avg" then v / (p1.sensors.length : ℚ) else v
      Except.ok (updateMinMax (saveData p1 0 value))

/-- Run `getData` on the raw results of consecutive ticks. -/
def runTicks (dm : DataMatcher) : Provider → List (List String) → Except JSError Provider
  | p, [] => Except.ok p
  | p, result :: rest =>
    match getData dm p result with
    | Except.error e => Except.error e
    | Except.ok p1 => runTicks dm p1 rest

/-! ## The unit formatter: `determinatePrefix`, `formatBytes`, `formatRate` -/

/-- The table `const PREFIX = " KMGTEZY"`. -/
def PREFIX : String := " KMGTEZY"

/-- The lookup `PREFIX[exponent]`; `none` is `undefined`. -/
def prefixAt (exponent : Int) : Option String :=
  if 0 ≤ exponent then (PREFIX.data[exponent.toNat]?).map String.singleton else none

/-- The string concatenation `s + t` where `s` may be `undefined`. -/
def jsAppend (s : Option String) (t : String) : String :=
  (s.getD "undefined") ++ t

/-- The local `sizeMultiplicator` of `determinatePrefix`: the factor is
`2 ** 10` for a binary unit and `1000` for a decimal one. -/
def sizeMultiplicator (binary : Bool) : Nat :=
  if binary = true then 1024 else 1000

/-- The two operations of the JavaScript number library that the formatter
relies on and whose result depends on the rounding of IEEE doubles:
`floorLog value base` is `Math.floor(Math.log(value) / Math.log(base))`, and
`toFixed1 value` is the decimal number that `value.toFixed(1)` writes. An engine
supplies both; the formatter is embedded for every such library. -/
structure NumberLib where
  floorLog : ℚ → Nat → Int
  toFixed1 : ℚ → ℚ

/-- `ModulePartPrototype.determinatePrefix(value, binary)` on the number library
`lib`: the exponent is the one the library computes, and no bound is applied to
it before the lookup in `PREFIX`. A returned unit of `none` is `undefined`. -/
def determinatePrefixWith (lib : NumberLib) (value : ℚ) (binary : Bool) : ℚ × Option String :=
  if value ≤ 0 then (value, some "")
  else
    let exponent : Int := lib.floorLog value (sizeMultiplicator binary)
    if exponent = 0 then (value, some "")
    else
      let unit : Option String :=
        if binary = true then some (jsAppend (prefixAt exponent) "i") else prefixAt exponent
      (value / (sizeMultiplicator binary : ℚ) ^ exponent, unit)

/-- Rounding to one decimal as `Number.prototype.toFixed(1)` defines it on the
exact value of a receiver below `10 ^ 21` in absolute value: the sign is set
aside, and of the multiples of `1/10` the nearest is taken, the larger one on a
tie. -/
def roundTenth (x : ℚ) : ℚ :=
  if x < 0 then -(((⌊(-x) * 10 + 1 / 2⌋ : Int) : ℚ) / 10)
  else ((⌊x * 10 + 1 / 2⌋ : Int) : ℚ) / 10

/-- The number library of exact arithmetic: the floor of the exact logarithm,
and `toFixed(1)` on the exact value. A library on IEEE doubles computes the same
exponent unless the value lies within rounding distance of a power of the base:
for `999999999999999` and base `1000` the quotient of the two double logarithms
rounds to `5`, where the exact logarithm floors to `4`. The closed evaluations
below use this library at `1/2`, `200`, `1500`, `1600`, `3 * 2 ^ 89` and at
`1000 ^ 5`, `1000 ^ 6`, `1000 ^ 7` and `1024 ^ 5`, where the double computation
gives the same exponent. -/
def exactLib : NumberLib :=
  { floorLog := fun value base => Int.log base value, toFixed1 := roundTenth }

/-- `determinatePrefix(value, binary)` on the exact library `exactLib`. -/
def determinatePrefix (value : ℚ) (binary : Bool) : ℚ × Option String :=
  determinatePrefixWith exactLib value binary

/-- What a formatter concatenates: the number it prints with `toFixed(1)`, the
unit after the blank, and for a rate the direction arrow. -/
structure Formatted where
  number : ℚ
  unit : String
  arrow : String

/-- `ModulePartPrototype.formatBytes(bytes)`. -/
def formatBytes (settings : Settings) (bytes : ℚ) : Formatted :=
  let r := determinatePrefix bytes (decide (settings.byteUnit = "binary"))
  { number := r.1, unit := jsAppend r.2 "B", arrow := "" }

/-- The text `formatRate` returns, `shown + " " + unit + " " + arrow`: `shown` is
the number that `value.toFixed(1)` writes, `unit` the prefix symbol followed by
`B/s` or `bit/s`. -/
structure RateText where
  shown : ℚ
  unit : String
  arrow : String
  deriving DecidableEq

/-- `ModulePartPrototype.formatRate(bytes, dir)` on the number library `lib`. -/
def formatRate (lib : NumberLib) (settings : Settings) (bytes : ℚ) (dir : Bool) : RateText :=
  let bytes := if "bit".data.isSuffixOf settings.rateUnit.data = true then bytes * 8 else bytes
  let r := determinatePrefixWith lib bytes ("binary".data.isPrefixOf settings.rateUnit.data)
  let unit :=
    if "byte".data.isSuffixOf settings.rateUnit.data = true then jsAppend r.2 "B"
    else jsAppend r.2 "bit"
  { shown := lib.toFixed1 r.1, unit := unit ++ "/s",
    arrow := if dir = true then "\u25B2" else "\u25BC" }

/-- A value of the setting `thermalUnit`, which the sources test both for
truthiness (`thermalUnit ? ... : ...`, `!thermalUnit`) and for identity with the
string `"celsius"`. -/
inductive UnitFlag where
  | undefined : UnitFlag
  | bool (b : Bool) : UnitFlag
  | str (s : String) : UnitFlag
  deriving DecidableEq, Repr

/-- JavaScript truthiness of a `thermalUnit` value. -/
def UnitFlag.truthy : UnitFlag → Bool
  | UnitFlag.undefined => false
  | UnitFlag.bool b => b
  | UnitFlag.str s => decide (s ≠ "")

/-- `ModulePartPrototype.formatThermal(celsius)`, with `thermalUnit` the value of
`this.settings.thermalUnit`; the unit glyph follows the number directly. -/
def formatThermal (thermalUnit : UnitFlag) (celsius : ℚ) : Formatted :=
  let number := if thermalUnit.truthy = true then celsius else celsius * 1.8 + 32
  let unit := if thermalUnit = UnitFlag.str "celsius" then "\u2103" else "\u2109"
  { number := number, unit := unit, arrow := "" }

/-! ## Reference descriptions used by the claims -/

/-- The most recent line at or before index `i` that starts with `Adapter:`. -/
def lastAdapterLine (lines : List String) (i : Nat) : Option String :=
  (lines.take (i + 1)).reverse.find? isAdapterLine

/-- Line `i` lies in an adapter section whose header does not contain `virtual`. -/
def inRealAdapter (lines : List String) (i : Nat) : Bool :=
  match lastAdapterLine lines i with
  | none => false
  | some header => !matchesVirtual header

/-- Line `i` exists, matches the data matcher and lies in a non-virtual adapter section. -/
def recordsSensor (dm : DataMatcher) (lines : List String) (i : Nat) : Bool :=
  match lines[i]? with
  | none => false
  | some line => (dm.run line).isSome && inRealAdapter lines i

/-- The exponent clamped to the bounds `[0, 8]`, as the specification words it. -/
def clampExponent (e : Int) : Int :=
  max 0 (min 8 e)

/-- The result the specification describes for a positive value: the exponent
`floor(log_base(v))` clamped to `[0, 8]`, `(v, "")` for exponent `0`, else the
value divided by `base ^ exponent` with the table symbol of that exponent
(followed by `i` in binary mode). -/
def determinePrefixClamped (value : ℚ) (binary : Bool) : ℚ × Option String :=
  let k := clampExponent (Int.log (sizeMultiplicator binary) value)
  if k = 0 then (value, some "")
  else
    (value / (sizeMultiplicator binary : ℚ) ^ k,
      (prefixAt k).map (fun sym => if binary = true then sym ++ "i" else sym))

/-- The four values of the `rateUnit` setting. -/
def rateUnitOf (binary bit : Bool) : String :=
  (if binary = true then "binary" else "decimal") ++ (if bit = true then "-bit" else "-byte")

/-- Saving the values `ds` of consecutive sensors as series `i + 1`, `i + 2`,
...: what the loop of `getData` does to the provider when every line parses. -/
def pushAll : Provider → Nat → List ℚ → Provider
  | p, _, [] => p
  | p, i, d :: ds => pushAll (saveData p (i + 1) d) (i + 1) ds

/-- For each recorded sensor, the number parsed from its line of `result`;
`none` when the line is absent or does not match. -/
def sensorValues (dm : DataMatcher) (result : List String) (sensors : List Nat) :
    List (Option ℚ) :=
  sensors.map (fun s => (result[s]?).bind dm.run)

/-- One series after a push: `value` appended, then trimmed to `cap`; a missing
series or a missing value changes nothing. -/
def pushed (cap : Nat) : Option (List ℚ) → Option ℚ → Option (List ℚ)
  | some h, some value => some (trim cap (h ++ [value]))
  | oh, _ => oh

/-- The aggregate that `getData` saves as series `0` for the parsed values
`ds` of `n` sensors: the accumulator of the loop, divided by `n` in `avg` mode;
`none` when the accumulator is still `null`. -/
def aggregateOf (mode : String) (n : Nat) (ds : List ℚ) : Option ℚ :=
  (ds.foldl (aggStep mode) none).map (fun v => if mode = "avg" then v / (n : ℚ) else v)

/-- The guarded assignment of `updateHistory` to `(this.min, this.minIndex)`,
for a push that leaves the series at length `len`. -/
def minStep (len : Nat) (acc : Bound × Option Int) (value : ℚ) : Bound × Option Int :=
  if acc.1 ≠ Bound.undefined ∧ (acc.1.falsy = true ∨ acc.1.gt value = true) then
    (Bound.num value, some (len : Int))
  else acc

/-- The guarded assignment of `updateHistory` to `(this.max, this.maxIndex)`,
for a push that leaves the series at length `len`. -/
def maxStep (len : Nat) (acc : Bound × Option Int) (value : ℚ) : Bound × Option Int :=
  if acc.1 ≠ Bound.undefined ∧ (acc.1.falsy = true ∨ acc.1.lt value = true) then
    (Bound.num value, some (len : Int))
  else acc

/-- The invariant that every completed tick restores, for a provider whose
series all hold `L` samples: the shape that `init` builds, samples at least `1`,
and, once a sample has been pushed, trackers that hold the least and the
greatest retained sample together with an index that is not beyond the position
of one of its occurrences. -/
structure TickInv (p : Provider) (L : Nat) : Prop where
  wf : p.history.length = p.sensors.length + 1
  nonempty : p.sensors ≠ []
  cap : L ≤ p.settings.graphSteps + 2
  uniform : ∀ h ∈ p.history, h.length = L
  ge_one : ∀ h ∈ p.history, ∀ e ∈ h, (1 : ℚ) ≤ e
  minOK : (L = 0 ∧ p.min = Bound.null) ∨
    ∃ (m : ℚ) (k : Int), p.min = Bound.num m ∧ p.minIndex = some k
      ∧ (∀ h ∈ p.history, ∀ e ∈ h, m ≤ e)
      ∧ ∃ h ∈ p.history, ∃ j : Nat, h[j]? = some m ∧ k ≤ (j : Int)
  maxOK : (L = 0 ∧ p.max = Bound.null) ∨
    ∃ (m : ℚ) (k : Int), p.max = Bound.num m ∧ p.maxIndex = some k
      ∧ (∀ h ∈ p.history, ∀ e ∈ h, e ≤ m)
      ∧ ∃ h ∈ p.history, ∃ j : Nat, h[j]? = some m ∧ k ≤ (j : Int)

/-! ## Lemmas on the rolling history -/

theorem trim_eq_drop {α : Type} (cap : Nat) (l : List α) :
    trim cap l = l.drop (l.length - cap) := by
  induction l with
  | nil => simp [trim]
  | cons x xs ih =>
    unfold trim
    split
    · rename_i h
      rw [ih]
      have h1 : (x :: xs).length - cap = (xs.length - cap) + 1 := by
        simp only [List.length_cons] at h ⊢
        omega
      rw [h1, List.drop_succ_cons]
    · rename_i h
      have h1 : (x :: xs).length - cap = 0 := by omega
      rw [h1, List.drop_zero]

theorem trim_length_le {α : Type} (cap : Nat) (l : List α) : (trim cap l).length ≤ cap := by
  rw [trim_eq_drop, List.length_drop]
  omega

theorem drop_append_drop {α : Type} (cap : Nat) (l vs : List α) :
    (l.drop (l.length - cap) ++ vs).drop ((l.drop (l.length - cap) ++ vs).length - cap)
      = (l ++ vs).drop ((l ++ vs).length - cap) := by
  have h1 : l.drop (l.length - cap) ++ vs = (l ++ vs).drop (l.length - cap) := by
    rw [List.drop_append_of_le_length (by omega)]
  rw [h1, List.drop_drop]
  congr 1
  simp only [List.length_drop, List.length_append]
  omega

theorem trackPush_history (p : Provider) (len : Nat) (v : ℚ) :
    (trackPush p len v).history = p.history := by
  unfold trackPush
  dsimp only
  split <;> split <;> rfl

theorem trackPush_settings (p : Provider) (len : Nat) (v : ℚ) :
    (trackPush p len v).settings = p.settings := by
  unfold trackPush
  dsimp only
  split <;> split <;> rfl

theorem updateHistory_settings (p : Provider) (name : Nat) (v : ℚ) :
    (updateHistory p name v).settings = p.settings := by
  unfold updateHistory
  split
  · rfl
  · rw [trackPush_settings]

theorem updateHistory_history_of_some (p : Provider) (name : Nat) (v : ℚ) (h : List ℚ)
    (hh : p.history[name]? = some h) :
    (updateHistory p name v).history =
      p.history.set name (trim (p.settings.graphSteps + 2) (h ++ [v])) := by
  unfold updateHistory
  rw [hh]
  dsimp only
  rw [trackPush_history]

theorem updateHistory_get_self (p : Provider) (name : Nat) (v : ℚ) (h : List ℚ)
    (hh : p.history[name]? = some h) :
    (updateHistory p name v).history[name]? =
      some (trim (p.settings.graphSteps + 2) (h ++ [v])) := by
  rw [updateHistory_history_of_some p name v h hh]
  have hlt : name < p.history.length := by
    rcases List.getElem?_eq_some_iff.mp hh with ⟨hlt, _⟩
    exact hlt
  simp [List.getElem?_set, hlt]

/-- Pushing `vs` one by one into a series that holds `h` (already within the
bound) leaves the last `graphSteps + 2` elements of `h ++ vs`. -/
theorem pushes_eq_drop (vs : List ℚ) (p : Provider) (name : Nat) (h : List ℚ)
    (hh : p.history[name]? = some h) (hle : h.length ≤ p.settings.graphSteps + 2) :
    (vs.foldl (fun s v => updateHistory s name v) p).history[name]? =
        some ((h ++ vs).drop ((h ++ vs).length - (p.settings.graphSteps + 2)))
      ∧ (vs.foldl (fun s v => updateHistory s name v) p).settings = p.settings := by
  induction vs generalizing p h with
  | nil =>
    have h0 : h.length - (p.settings.graphSteps + 2) = 0 := by omega
    simp [hh, h0]
  | cons v vs ih =>
    rw [List.foldl_cons]
    have hs := updateHistory_get_self p name v h hh
    have hset := updateHistory_settings p name v
    have hl : (trim (p.settings.graphSteps + 2) (h ++ [v])).length
        ≤ (updateHistory p name v).settings.graphSteps + 2 := by
      rw [hset]
      exact trim_length_le _ _
    obtain ⟨ih1, ih2⟩ := ih (updateHistory p name v) _ hs hl
    refine ⟨?_, by rw [ih2, hset]⟩
    rw [ih1, hset, trim_eq_drop, drop_append_drop]
    simp

/-! ## Lemmas on the warning countdown -/

theorem checkWarning_settings (p : Provider) (v : ℚ) :
    (checkWarning p v).1.settings = p.settings := by
  unfold checkWarning
  split
  · dsimp only
    split <;> rfl
  · rfl

theorem checkWarning_over (p : Provider) (v : ℚ) (n : Int) (r : Nat)
    (hc : p.notifications = some (n - r)) (hv : p.settings.warningValue ≤ v) :
    (checkWarning p v).1.notifications = some (n - (r + 1 : Nat))
      ∧ ((checkWarning p v).2.isSome = true ↔ (r : Int) + 1 = n) := by
  unfold checkWarning
  rw [if_pos (ge_iff_le.mpr hv), hc]
  dsimp only [Option.map]
  constructor
  · split
    · simp only [Option.some.injEq]; push_cast; ring
    · simp only [Option.some.injEq]; push_cast; ring
  · split
    · rename_i h
      simp only [Option.some.injEq] at h
      simp only [Option.isSome_some, true_iff]
      omega
    · rename_i h
      simp only [Option.some.injEq] at h
      simp only [Option.isSome_none, Bool.false_eq_true, false_iff]
      omega

theorem checkWarning_below (p : Provider) (v : ℚ) (hv : v < p.settings.warningValue) :
    (checkWarning p v).1.notifications = some p.settings.warningTime
      ∧ (checkWarning p v).2.isSome = false := by
  unfold checkWarning
  rw [if_neg (by simpa using hv)]
  simp

theorem warningTicks_fired_iff (n : Nat) (hn : 1 ≤ n) (vals : List ℚ) :
    ∀ (p : Provider) (r t : Nat), p.settings.warningTime = (n : Int) →
      p.notifications = some ((n : Int) - r) → t < vals.length →
      ((warningTicks p vals)[t]? = some true ↔
        (∀ i, i ≤ t → t + 1 ≤ i + n → ∃ v, vals[i]? = some v ∧ p.settings.warningValue ≤ v)
          ∧ ((n ≤ t ∧ ∃ v, vals[t - n]? = some v ∧ v < p.settings.warningValue)
              ∨ (t < n ∧ r + t + 1 = n))) := by
  induction vals with
  | nil => intro p r t _ _ ht; simp at ht
  | cons v vs ih =>
    intro p r t hw hc ht
    have hset := checkWarning_settings p v
    cases t with
    | zero =>
      simp only [warningTicks, List.getElem?_cons_zero, Option.some.injEq]
      by_cases hv : p.settings.warningValue ≤ v
      · obtain ⟨_, h2⟩ := checkWarning_over p v n r hc hv
        rw [h2]
        constructor
        · intro h
          refine ⟨?_, Or.inr ⟨by omega, by omega⟩⟩
          intro i hi _
          have : i = 0 := by omega
          subst this
          exact ⟨v, by simp, hv⟩
        · rintro ⟨_, h | h⟩
          · omega
          · omega
      · have hv1 : v < p.settings.warningValue := not_le.mp hv
        obtain ⟨_, h2⟩ := checkWarning_below p v hv1
        rw [h2]
        simp only [Bool.false_eq_true, false_iff, not_and]
        intro h
        exfalso
        obtain ⟨w, hw1, hw2⟩ := h 0 (le_refl _) (by omega)
        simp only [List.getElem?_cons_zero, Option.some.injEq] at hw1
        subst hw1
        exact hv hw2
    | succ t =>
      have ht1 : t < vs.length := by simpa using ht
      simp only [warningTicks, List.getElem?_cons_succ]
      by_cases hv : p.settings.warningValue ≤ v
      · obtain ⟨h1, _⟩ := checkWarning_over p v n r hc hv
        rw [ih (checkWarning p v).1 (r + 1) t (by rw [hset]; exact hw) h1 ht1, hset]
        constructor
        · rintro ⟨hwin, hend⟩
          constructor
          · intro i hi hin
            cases i with
            | zero => exact ⟨v, by simp, hv⟩
            | succ j =>
              simp only [List.getElem?_cons_succ]
              exact hwin j (by omega) (by omega)
          · rcases hend with ⟨h1, w, hw1, hw2⟩ | ⟨h1, h2⟩
            · left
              refine ⟨by omega, w, ?_, hw2⟩
              have : t + 1 - n = (t - n) + 1 := by omega
              rw [this, List.getElem?_cons_succ]
              exact hw1
            · by_cases hnt : n = t + 1
              · omega
              · right
                omega
        · rintro ⟨hwin, hend⟩
          constructor
          · intro i hi hin
            have := hwin (i + 1) (by omega) (by omega)
            simpa only [List.getElem?_cons_succ] using this
          · rcases hend with ⟨h1, w, hw1, hw2⟩ | ⟨h1, h2⟩
            · by_cases hnt : n = t + 1
              · exfalso
                subst hnt
                simp only [Nat.sub_self, List.getElem?_cons_zero, Option.some.injEq] at hw1
                subst hw1
                exact absurd hv (not_le.mpr hw2)
              · left
                refine ⟨by omega, w, ?_, hw2⟩
                have : t + 1 - n = (t - n) + 1 := by omega
                rw [this, List.getElem?_cons_succ] at hw1
                exact hw1
            · right
              omega
      · have hv1 : v < p.settings.warningValue := not_le.mp hv
        obtain ⟨h1, _⟩ := checkWarning_below p v hv1
        rw [hw] at h1
        rw [ih (checkWarning p v).1 0 t (by rw [hset]; exact hw) (by simpa using h1) ht1, hset]
        constructor
        · rintro ⟨hwin, hend⟩
          constructor
          · intro i hi hin
            cases i with
            | zero =>
              exfalso
              rcases hend with ⟨h1, _⟩ | ⟨h1, h2⟩ <;> omega
            | succ j =>
              simp only [List.getElem?_cons_succ]
              exact hwin j (by omega) (by omega)
          · rcases hend with ⟨h1, w, hw1, hw2⟩ | ⟨h1, h2⟩
            · left
              refine ⟨by omega, w, ?_, hw2⟩
              have : t + 1 - n = (t - n) + 1 := by omega
              rw [this, List.getElem?_cons_succ]
              exact hw1
            · left
              refine ⟨by omega, v, ?_, hv1⟩
              have : t + 1 - n = 0 := by omega
              rw [this, List.getElem?_cons_zero]
        · rintro ⟨hwin, hend⟩
          constructor
          · intro i hi hin
            have := hwin (i + 1) (by omega) (by omega)
            simpa only [List.getElem?_cons_succ] using this
          · rcases hend with ⟨h1, w, hw1, hw2⟩ | ⟨h1, h2⟩
            · by_cases hnt : n = t + 1
              · right
                omega
              · left
                refine ⟨by omega, w, ?_, hw2⟩
                have : t + 1 - n = (t - n) + 1 := by omega
                rw [this, List.getElem?_cons_succ] at hw1
                exact hw1
            · exfalso
              obtain ⟨w, hw1, hw2⟩ := hwin 0 (by omega) (by omega)
              simp only [List.getElem?_cons_zero, Option.some.injEq] at hw1
              subst hw1
              exact hv hw2

/-! ## Lemmas on the scan of the sensor lines -/

theorem nameMatch_of_digit (l : String) (h : ∃ c ∈ l.data, c.isDigit = true) :
    ∃ name, nameMatch l = some name := by
  obtain ⟨c, hc, hd⟩ := h
  have hcolon : c ≠ ':' := by
    rintro rfl
    exact absurd hd (by decide)
  have hne : l.data.dropWhile (fun c => decide (c = ':')) ≠ [] := by
    intro h0
    rw [List.dropWhile_eq_nil_iff] at h0
    have := h0 c hc
    simp only [decide_eq_true_eq] at this
    exact hcolon this
  have hhead := List.head_dropWhile_not (fun c => decide (c = ':')) l.data hne
  unfold nameMatch
  dsimp only
  cases hdw : l.data.dropWhile (fun c => decide (c = ':')) with
  | nil => exact absurd hdw hne
  | cons x xs =>
    simp only [hdw, List.head_cons, decide_eq_false_iff_not] at hhead
    have : List.takeWhile (fun c => decide (c ≠ ':')) (x :: xs) ≠ [] := by
      rw [List.takeWhile_cons]
      simp [hhead]
    rw [if_neg this]
    exact ⟨_, rfl⟩

/-- What a successful `parseSensorLine` changes. -/
theorem parseSensorLine_ok (dm : DataMatcher) (p : Provider) (line : String) (i : Nat)
    (h : (dm.run line).isSome = true) :
    ∃ p1, parseSensorLine p line i = Except.ok p1
      ∧ p1.sensors = p.sensors ++ [i] ∧ p1.history = p.history ++ [[]]
      ∧ p1.settings = p.settings ∧ p1.min = p.min ∧ p1.max = p.max
      ∧ p1.minIndex = p.minIndex ∧ p1.maxIndex = p.maxIndex
      ∧ p1.unavailable = p.unavailable ∧ p1.notifications = p.notifications
      ∧ p1.data = p.data := by
  obtain ⟨q, hq⟩ := Option.isSome_iff_exists.mp h
  obtain ⟨name, hname⟩ := nameMatch_of_digit line (dm.digit line q hq)
  unfold parseSensorLine
  rw [hname]
  exact ⟨_, rfl, rfl, rfl, rfl, rfl, rfl, rfl, rfl, rfl, rfl, rfl⟩

theorem adapterState_eq (pre : List String) :
    pre.foldl adapterStep false =
      (match pre.reverse.find? isAdapterLine with
       | none => false
       | some header => !matchesVirtual header) := by
  induction pre using List.reverseRecOn with
  | nil => rfl
  | append_singleton pre l ih =>
    rw [List.foldl_append, List.foldl_cons, List.foldl_nil, List.reverse_append,
      List.reverse_singleton, List.singleton_append, List.find?_cons, ih]
    unfold adapterStep
    cases hl : isAdapterLine l
    · simp
    · cases hv : matchesVirtual l <;> simp [hv]

theorem recordsSensor_at (dm : DataMatcher) (pre : List String) (line : String)
    (rest : List String) :
    recordsSensor dm (pre ++ line :: rest) pre.length =
      ((dm.run line).isSome && adapterStep (pre.foldl adapterStep false) line) := by
  have h1 : (pre ++ line :: rest)[pre.length]? = some line := by
    rw [List.getElem?_append_right (le_refl _)]
    simp
  have h2 : (pre ++ line :: rest).take (pre.length + 1) = pre ++ [line] := by
    rw [List.take_append_eq_append_take]
    simp
  have h3 : adapterStep (pre.foldl adapterStep false) line
      = (pre ++ [line]).foldl adapterStep false := by
    rw [List.foldl_append, List.foldl_cons, List.foldl_nil]
  unfold recordsSensor inRealAdapter lastAdapterLine
  rw [h1, h2, h3, adapterState_eq]

/-- The scan of `SensorDataProvider.init` never throws; it appends to
`sensors` the indices that `recordsSensor` describes and one empty series per
sensor, and leaves the other fields alone. -/
theorem initLoop_spec (dm : DataMatcher) (rest : List String) :
    ∀ (pre : List String) (p : Provider),
      ∃ p1, initLoop dm rest pre.length (pre.foldl adapterStep false) p = Except.ok p1
        ∧ p1.sensors = p.sensors
            ++ (List.range' pre.length rest.length).filter (recordsSensor dm (pre ++ rest))
        ∧ p1.history = p.history ++ List.replicate (p1.sensors.length - p.sensors.length) []
        ∧ p1.settings = p.settings ∧ p1.min = p.min ∧ p1.max = p.max
        ∧ p1.minIndex = p.minIndex ∧ p1.maxIndex = p.maxIndex
        ∧ p1.unavailable = p.unavailable ∧ p1.notifications = p.notifications
        ∧ p1.data = p.data := by
  induction rest with
  | nil =>
    intro pre p
    exact ⟨p, rfl, by simp, by simp, rfl, rfl, rfl, rfl, rfl, rfl, rfl, rfl⟩
  | cons line rest ih =>
    intro pre p
    have hpre : (pre ++ [line]).length = pre.length + 1 := by simp
    have hfold : (pre ++ [line]).foldl adapterStep false
        = adapterStep (pre.foldl adapterStep false) line := by
      rw [List.foldl_append, List.foldl_cons, List.foldl_nil]
    have happ : pre ++ [line] ++ rest = pre ++ line :: rest := by simp
    have hrec := recordsSensor_at dm pre line rest
    unfold initLoop
    by_cases hc : adapterStep (pre.foldl adapterStep false) line = true
        ∧ (dm.run line).isSome = true
    · rw [if_pos hc]
      obtain ⟨p1, hp1, hs1, hh1, hrest1⟩ := parseSensorLine_ok dm p line pre.length hc.2
      rw [hp1]
      dsimp only
      obtain ⟨p2, hp2, hs2, hh2, hrest2⟩ := ih (pre ++ [line]) p1
      rw [hpre, hfold] at hp2
      rw [hpre, happ] at hs2
      refine ⟨p2, hp2, ?_, ?_, ?_⟩
      · rw [hs2, hs1, List.length_cons, List.range'_succ, List.filter_cons, hrec, hc.1, hc.2]
        simp
      · have hlen : p2.sensors.length - p.sensors.length
            = (p2.sensors.length - p1.sensors.length) + 1 := by
          rw [hs2, hs1]
          simp only [List.length_append, List.length_cons, List.length_nil]
          omega
        rw [hh2, hh1, hlen, List.replicate_succ, List.append_assoc]
        simp
      · obtain ⟨a1, a2, a3, a4, a5, a6, a7, a8⟩ := hrest1
        obtain ⟨b1, b2, b3, b4, b5, b6, b7, b8⟩ := hrest2
        exact ⟨b1.trans a1, b2.trans a2, b3.trans a3, b4.trans a4, b5.trans a5, b6.trans a6,
          b7.trans a7, b8.trans a8⟩
    · rw [if_neg hc]
      obtain ⟨p2, hp2, hs2, hrest2⟩ := ih (pre ++ [line]) p
      rw [hpre, hfold] at hp2
      rw [hpre, happ] at hs2
      refine ⟨p2, hp2, ?_, hrest2⟩
      rw [hs2, List.length_cons, List.range'_succ, List.filter_cons, hrec]
      have : ((dm.run line).isSome && adapterStep (pre.foldl adapterStep false) line) = false := by
        cases h1 : (dm.run line).isSome <;> cases h2 : adapterStep (pre.foldl adapterStep false) line <;> simp_all
      rw [this]
      simp

/-- The provider that `init` returns for a supplied list of lines. -/
theorem init_some_spec (settings : Settings) (dm : DataMatcher) (lines : List String) :
    ∃ p, init settings dm (some lines) = Except.ok p
      ∧ p.sensors = (List.range lines.length).filter (recordsSensor dm lines)
      ∧ p.history = [] :: List.replicate p.sensors.length []
      ∧ p.unavailable = decide (p.sensors = [])
      ∧ p.settings = settings ∧ p.min = Bound.null ∧ p.max = Bound.null := by
  obtain ⟨p1, hp1, hs1, hh1, hset, hmin, hmax, _, _, hun, _, _⟩ :=
    initLoop_spec dm lines [] (freshProvider settings)
  simp only [List.length_nil, List.foldl_nil, List.nil_append] at hp1 hs1
  have hs0 : (freshProvider settings).sensors = [] := rfl
  rw [hs0, List.nil_append, ← List.range_eq_range'] at hs1
  rw [hs0, List.length_nil, Nat.sub_zero] at hh1
  unfold init
  dsimp only
  rw [hp1]
  dsimp only
  by_cases hz : p1.sensors.length = 0
  · rw [if_pos hz]
    have hnil : p1.sensors = [] := List.length_eq_zero.mp hz
    refine ⟨_, rfl, hs1, hh1, ?_, hset, hmin, hmax⟩
    simp [hnil]
  · rw [if_neg hz]
    have hnil : p1.sensors ≠ [] := fun h => hz (by rw [h]; rfl)
    refine ⟨_, rfl, hs1, hh1, ?_, hset, hmin, hmax⟩
    rw [hun]
    simp [hnil, freshProvider]

/-! ## Lemmas on the unit formatter -/

theorem sizeMultiplicator_gt_one (binary : Bool) : 1 < sizeMultiplicator binary := by
  cases binary <;> decide

theorem sizeMultiplicator_pos (binary : Bool) : (0 : ℚ) < (sizeMultiplicator binary : ℚ) := by
  have := sizeMultiplicator_gt_one binary
  exact_mod_cast (by omega : 0 < sizeMultiplicator binary)

theorem determinatePrefixWith_of_floorLog (lib : NumberLib) (v : ℚ) (binary : Bool) (k : Int)
    (hv : 0 < v) (hk : lib.floorLog v (sizeMultiplicator binary) = k) (hk0 : k ≠ 0) :
    determinatePrefixWith lib v binary
      = (v / (sizeMultiplicator binary : ℚ) ^ k,
          if binary = true then some (jsAppend (prefixAt k) "i") else prefixAt k) := by
  unfold determinatePrefixWith
  rw [if_neg (not_le.mpr hv)]
  dsimp only
  rw [hk, if_neg hk0]

theorem determinatePrefix_of_log (v : ℚ) (binary : Bool) (k : Int) (hv : 0 < v)
    (hk : Int.log (sizeMultiplicator binary) v = k) (hk0 : k ≠ 0) :
    determinatePrefix v binary
      = (v / (sizeMultiplicator binary : ℚ) ^ k,
          if binary = true then some (jsAppend (prefixAt k) "i") else prefixAt k) :=
  determinatePrefixWith_of_floorLog exactLib v binary k hv hk hk0

/-- On the exact library the exponent of a value `1 ≤ v < base ^ 8` is the floor
of its logarithm, `base ^ k ≤ v < base ^ (k + 1)`, and lies in `[0, 7]`. -/
theorem exactLib_floorLog_range (v : ℚ) (binary : Bool) (hv : 1 ≤ v)
    (hlt : v < (sizeMultiplicator binary : ℚ) ^ (8 : Int)) :
    0 ≤ exactLib.floorLog v (sizeMultiplicator binary)
      ∧ exactLib.floorLog v (sizeMultiplicator binary) ≤ 7
      ∧ (sizeMultiplicator binary : ℚ) ^ exactLib.floorLog v (sizeMultiplicator binary) ≤ v
      ∧ v < (sizeMultiplicator binary : ℚ)
          ^ (exactLib.floorLog v (sizeMultiplicator binary) + 1) := by
  have hpos : 0 < v := lt_of_lt_of_le one_pos hv
  have hb := sizeMultiplicator_gt_one binary
  show 0 ≤ Int.log (sizeMultiplicator binary) v
      ∧ Int.log (sizeMultiplicator binary) v ≤ 7
      ∧ (sizeMultiplicator binary : ℚ) ^ Int.log (sizeMultiplicator binary) v ≤ v
      ∧ v < (sizeMultiplicator binary : ℚ) ^ (Int.log (sizeMultiplicator binary) v + 1)
  refine ⟨?_, ?_, Int.zpow_log_le_self hb hpos, Int.lt_zpow_succ_log_self hb v⟩
  · rw [Int.log_of_one_le_right _ hv]
    exact Int.natCast_nonneg _
  · have := (Int.lt_zpow_iff_log_lt hb hpos).mp hlt
    omega

theorem rateUnitOf_tests (binary bit : Bool) :
    "bit".data.isSuffixOf (rateUnitOf binary bit).data = bit
      ∧ "binary".data.isPrefixOf (rateUnitOf binary bit).data = binary
      ∧ "byte".data.isSuffixOf (rateUnitOf binary bit).data = !bit := by
  cases binary <;> cases bit <;> decide

/-- The parts of the text `formatRate` returns for a `rateUnit` of the given
base and unit: the number and the prefix symbol are those `determinatePrefix`
returns for the raw value, multiplied by `8` first under a bit unit. -/
theorem formatRate_parts (lib : NumberLib) (s : Settings) (binary bit : Bool) (v : ℚ)
    (dir : Bool) :
    formatRate lib { s with rateUnit := rateUnitOf binary bit } v dir
      = { shown := lib.toFixed1 (determinatePrefixWith lib (if bit = true then v * 8 else v) binary).1,
          unit := jsAppend (determinatePrefixWith lib (if bit = true then v * 8 else v) binary).2
            (if bit = true then "bit" else "B") ++ "/s",
          arrow := if dir = true then "\u25B2" else "\u25BC" } := by
  obtain ⟨h1, h2, h3⟩ := rateUnitOf_tests binary bit
  unfold formatRate
  simp only [h1, h2, h3]
  cases bit <;> simp

/-! ## Lemmas on a tick of the sensor provider -/

theorem trackPush_data (p : Provider) (len : Nat) (v : ℚ) :
    (trackPush p len v).data = p.data ∧ (trackPush p len v).sensors = p.sensors := by
  unfold trackPush
  dsimp only
  split <;> split <;> exact ⟨rfl, rfl⟩

theorem saveData_fields (p : Provider) (name : Nat) (v : ℚ) :
    (saveData p name v).settings = p.settings
      ∧ (saveData p name v).sensors = p.sensors
      ∧ (∀ k, (saveData p name v).data k = if k = name then some v else p.data k)
      ∧ (∀ k, (saveData p name v).history[k]? =
          if k = name then pushed (p.settings.graphSteps + 2) p.history[k]? (some v)
          else p.history[k]?) := by
  unfold saveData
  refine ⟨by rw [updateHistory_settings], ?_, ?_, ?_⟩
  · unfold updateHistory
    split
    · rfl
    · rw [(trackPush_data _ _ _).2]
  · intro k
    unfold updateHistory
    split
    · rfl
    · rw [(trackPush_data _ _ _).1]
  · intro k
    cases hh : p.history[name]? with
    | none =>
      have : (updateHistory { p with data :=
          fun k => if k = name then some v else p.data k } name v).history = p.history := by
        unfold updateHistory
        simp only [hh]
      rw [this]
      by_cases hk : k = name
      · subst hk
        rw [if_pos rfl, hh]
        rfl
      · rw [if_neg hk]
    | some h =>
      have key := updateHistory_history_of_some
        { p with data := fun k => if k = name then some v else p.data k } name v h hh
      rw [key]
      by_cases hk : k = name
      · subst hk
        have hlt : k < p.history.length := (List.getElem?_eq_some_iff.mp hh).1
        rw [if_pos rfl, hh]
        simp [List.getElem?_set, hlt, pushed]
      · rw [if_neg hk, List.getElem?_set_ne (Ne.symm hk)]

theorem pushAll_fields (ds : List ℚ) :
    ∀ (p : Provider) (i : Nat),
      (pushAll p i ds).settings = p.settings
        ∧ (pushAll p i ds).sensors = p.sensors
        ∧ (∀ k, (pushAll p i ds).data k =
            if i < k then (match ds[k - i - 1]? with
              | some d => some d
              | none => p.data k) else p.data k)
        ∧ (∀ k, (pushAll p i ds).history[k]? =
            if i < k then pushed (p.settings.graphSteps + 2) p.history[k]? ds[k - i - 1]?
            else p.history[k]?) := by
  induction ds with
  | nil =>
    intro p i
    refine ⟨rfl, rfl, ?_, ?_⟩
    · intro k
      simp [pushAll]
    · intro k
      cases h : p.history[k]? <;> simp [pushAll, pushed, h]
  | cons d ds ih =>
    intro p i
    obtain ⟨s1, s2, s3, s4⟩ := saveData_fields p (i + 1) d
    obtain ⟨a1, a2, a3, a4⟩ := ih (saveData p (i + 1) d) (i + 1)
    unfold pushAll
    refine ⟨a1.trans s1, a2.trans s2, ?_, ?_⟩
    · intro k
      rw [a3 k, s3 k]
      by_cases h1 : i + 1 < k
      · have e : k - i - 1 = (k - (i + 1) - 1) + 1 := by omega
        have hk : k ≠ i + 1 := by omega
        have hi : i < k := by omega
        simp only [if_pos h1, if_pos hi, if_neg hk, e, List.getElem?_cons_succ]
      · by_cases h2 : k = i + 1
        · subst h2
          simp
        · have hi : ¬ i < k := by omega
          simp only [if_neg h1, if_neg h2, if_neg hi]
    · intro k
      rw [a4 k, s4 k, s1]
      by_cases h1 : i + 1 < k
      · have e : k - i - 1 = (k - (i + 1) - 1) + 1 := by omega
        have hk : k ≠ i + 1 := by omega
        have hi : i < k := by omega
        simp only [if_pos h1, if_pos hi, if_neg hk, e, List.getElem?_cons_succ]
      · by_cases h2 : k = i + 1
        · subst h2
          simp
        · have hi : ¬ i < k := by omega
          simp only [if_neg h1, if_neg h2, if_neg hi]

theorem getDataLoop_ok (dm : DataMatcher) (result : List String) (mode : String)
    (sensors : List Nat) :
    ∀ (ds : List ℚ) (i : Nat) (p : Provider) (value : Option ℚ),
      sensorValues dm result sensors = ds.map some →
      getDataLoop dm result mode sensors i p value
        = Except.ok (pushAll p i ds, ds.foldl (aggStep mode) value) := by
  induction sensors with
  | nil =>
    intro ds i p value h
    cases ds with
    | nil => rfl
    | cons d ds => simp [sensorValues] at h
  | cons s rest ih =>
    intro ds i p value h
    cases ds with
    | nil => simp [sensorValues] at h
    | cons d ds =>
      simp only [sensorValues, List.map_cons, List.cons.injEq] at h
      obtain ⟨h1, h2⟩ := h
      unfold getDataLoop
      cases hl : result[s]? with
      | none => rw [hl] at h1; simp at h1
      | some line =>
        rw [hl] at h1
        simp only [Option.some_bind] at h1
        dsimp only
        rw [h1]
        dsimp only
        rw [ih ds (i + 1) _ _ h2]
        rfl

theorem getDataLoop_error (dm : DataMatcher) (result : List String) (mode : String)
    (sensors : List Nat) :
    ∀ (i : Nat) (p : Provider) (value : Option ℚ),
      none ∈ sensorValues dm result sensors →
      getDataLoop dm result mode sensors i p value = Except.error JSError.typeError := by
  induction sensors with
  | nil =>
    intro i p value h
    simp [sensorValues] at h
  | cons s rest ih =>
    intro i p value h
    unfold getDataLoop
    cases hl : result[s]? with
    | none => rfl
    | some line =>
      dsimp only
      cases hr : dm.run line with
      | none => rfl
      | some d =>
        dsimp only
        apply ih
        simp only [sensorValues, List.map_cons, List.mem_cons, hl] at h
        rcases h with h | h
        · rw [Option.some_bind, hr] at h
          exact absurd h (by simp)
        · exact h

theorem updateMinMax_fields (p : Provider) :
    (updateMinMax p).settings = p.settings ∧ (updateMinMax p).sensors = p.sensors
      ∧ (updateMinMax p).data = p.data ∧ (updateMinMax p).history = p.history := by
  unfold updateMinMax
  dsimp only
  split <;> split <;> (try split) <;> (try split) <;> exact ⟨rfl, rfl, rfl, rfl⟩

theorem foldl_min_spec (ds : List ℚ) :
    ∀ a : ℚ, ds.foldl min a ∈ a :: ds ∧ ∀ d ∈ a :: ds, ds.foldl min a ≤ d := by
  induction ds with
  | nil => intro a; simp
  | cons x xs ih =>
    intro a
    obtain ⟨h1, h2⟩ := ih (min a x)
    rw [List.foldl_cons]
    constructor
    · rcases List.mem_cons.mp h1 with h | h
      · rw [h]
        rcases min_choice a x with hc | hc <;> rw [hc] <;> simp
      · exact List.mem_cons_of_mem _ (List.mem_cons_of_mem _ h)
    · intro d hd
      have hm := h2 (min a x) (List.mem_cons_self _ _)
      rcases List.mem_cons.mp hd with h | h
      · rw [h]
        exact le_trans hm (min_le_left _ _)
      · rcases List.mem_cons.mp h with h | h
        · rw [h]
          exact le_trans hm (min_le_right _ _)
        · exact h2 d (List.mem_cons_of_mem _ h)

theorem foldl_max_spec (ds : List ℚ) :
    ∀ a : ℚ, ds.foldl max a ∈ a :: ds ∧ ∀ d ∈ a :: ds, d ≤ ds.foldl max a := by
  induction ds with
  | nil => intro a; simp
  | cons x xs ih =>
    intro a
    obtain ⟨h1, h2⟩ := ih (max a x)
    rw [List.foldl_cons]
    constructor
    · rcases List.mem_cons.mp h1 with h | h
      · rw [h]
        rcases max_choice a x with hc | hc <;> rw [hc] <;> simp
      · exact List.mem_cons_of_mem _ (List.mem_cons_of_mem _ h)
    · intro d hd
      have hm := h2 (max a x) (List.mem_cons_self _ _)
      rcases List.mem_cons.mp hd with h | h
      · rw [h]
        exact le_trans (le_max_left _ _) hm
      · rcases List.mem_cons.mp h with h | h
        · rw [h]
          exact le_trans (le_max_right _ _) hm
        · exact h2 d (List.mem_cons_of_mem _ h)

/-- The accumulator of the loop of `getData` once it holds a number. -/
theorem aggStep_fold (mode : String) (ds : List ℚ) :
    ∀ a : ℚ, ds.foldl (aggStep mode) (some a) =
      some (if mode = "min" then ds.foldl min a
            else if mode = "avg" then a + ds.sum
            else if mode = "max" then ds.foldl max a
            else a) := by
  induction ds with
  | nil => intro a; simp
  | cons x xs ih =>
    intro a
    rw [List.foldl_cons]
    by_cases hmin : mode = "min"
    · subst hmin
      have : aggStep "min" (some a) x = some (min a x) := by
        unfold aggStep toNumber
        by_cases hax : a > x
        · simp [hax, min_eq_right (le_of_lt hax)]
        · have hle : a ≤ x := not_lt.mp hax
          simp [hax, min_eq_left hle]
      rw [this, ih]
      simp
    · by_cases havg : mode = "avg"
      · subst havg
        have : aggStep "avg" (some a) x = some (a + x) := by
          unfold aggStep toNumber
          simp
        rw [this, ih]
        simp [add_assoc]
      · by_cases hmax : mode = "max"
        · subst hmax
          have : aggStep "max" (some a) x = some (max a x) := by
            unfold aggStep toNumber
            by_cases hax : a < x
            · simp [hax, max_eq_right (le_of_lt hax)]
            · have hle : x ≤ a := not_lt.mp hax
              simp [hax, max_eq_left hle]
          rw [this, ih]
          simp
        · have : aggStep mode (some a) x = some a := by
            unfold aggStep
            simp [hmin, havg, hmax]
          rw [this, ih]
          simp [hmin, havg, hmax]

theorem aggregateOf_cons (mode : String) (n : Nat) (d : ℚ) (ds : List ℚ) :
    aggregateOf mode n (d :: ds) =
      some (if mode = "min" then ds.foldl min d
            else if mode = "avg" then (d + ds.sum) / (n : ℚ)
            else if mode = "max" then ds.foldl max d
            else d) := by
  unfold aggregateOf
  have h0 : aggStep mode none d = some d := by
    unfold aggStep
    simp
  rw [List.foldl_cons, h0, aggStep_fold]
  by_cases hmin : mode = "min"
  · subst hmin; simp
  · by_cases havg : mode = "avg"
    · subst havg; simp
    · simp [hmin, havg]

/-- The closed form of a tick in which every sensor line parses. -/
theorem getData_ok (dm : DataMatcher) (p : Provider) (result : List String) (ds : List ℚ)
    (agg : ℚ) (hvals : sensorValues dm result p.sensors = ds.map some)
    (hagg : aggregateOf p.settings.mode p.sensors.length ds = some agg) :
    getData dm p result = Except.ok (updateMinMax (saveData (pushAll p 0 ds) 0 agg)) := by
  unfold getData
  rw [getDataLoop_ok dm result _ p.sensors ds 0 p none hvals]
  dsimp only
  unfold aggregateOf at hagg
  cases hf : ds.foldl (aggStep p.settings.mode) none with
  | none => rw [hf] at hagg; simp at hagg
  | some v =>
    rw [hf] at hagg
    simp only [Option.map_some', Option.some.injEq] at hagg
    dsimp only
    rw [(pushAll_fields ds p 0).2.1, hagg]

theorem getData_error (dm : DataMatcher) (p : Provider) (result : List String)
    (h : none ∈ sensorValues dm result p.sensors) :
    getData dm p result = Except.error JSError.typeError := by
  unfold getData
  rw [getDataLoop_error dm result _ p.sensors 0 p none h]

/-- What a completed tick stores: series `k` receives entry `k` of `agg :: ds`. -/
theorem tick_fields (p : Provider) (ds : List ℚ) (agg : ℚ) :
    (∀ k : Nat, (updateMinMax (saveData (pushAll p 0 ds) 0 agg)).data k =
        (match (agg :: ds)[k]? with
          | some d => some d
          | none => p.data k))
      ∧ (∀ k : Nat, (updateMinMax (saveData (pushAll p 0 ds) 0 agg)).history[k]? =
          pushed (p.settings.graphSteps + 2) p.history[k]? (agg :: ds)[k]?)
      ∧ (updateMinMax (saveData (pushAll p 0 ds) 0 agg)).settings = p.settings
      ∧ (updateMinMax (saveData (pushAll p 0 ds) 0 agg)).sensors = p.sensors := by
  obtain ⟨u1, u2, u3, u4⟩ := updateMinMax_fields (saveData (pushAll p 0 ds) 0 agg)
  obtain ⟨s1, s2, s3, s4⟩ := saveData_fields (pushAll p 0 ds) 0 agg
  obtain ⟨a1, a2, a3, a4⟩ := pushAll_fields ds p 0
  refine ⟨?_, ?_, by rw [u1, s1, a1], by rw [u2, s2, a2]⟩
  · intro k
    rw [u3, s3 k, a3 k]
    cases k with
    | zero => simp
    | succ k => simp
  · intro k
    rw [u4, s4 k, a4 k, a1]
    cases k with
    | zero => simp
    | succ k => simp

theorem sensorValues_length (dm : DataMatcher) (result : List String) (sensors : List Nat)
    (ds : List ℚ) (h : sensorValues dm result sensors = ds.map some) :
    sensors.length = ds.length := by
  have := congrArg List.length h
  simpa [sensorValues] using this

/-! ## Lemmas on the min/max tracker -/

theorem trackPush_trackers (p : Provider) (len : Nat) (v : ℚ) :
    ((trackPush p len v).min, (trackPush p len v).minIndex) = minStep len (p.min, p.minIndex) v
      ∧ ((trackPush p len v).max, (trackPush p len v).maxIndex)
          = maxStep len (p.max, p.maxIndex) v := by
  unfold trackPush minStep maxStep
  dsimp only
  split <;> split <;> exact ⟨rfl, rfl⟩

/-- One series after a push, when it held `L ≤ cap` entries. -/
theorem trim_push_spec (cap L : Nat) (h : List ℚ) (v : ℚ) (hL : h.length = L) (hcap : L ≤ cap)
    (hpos : 1 ≤ cap) :
    (trim cap (h ++ [v])).length = min (L + 1) cap
      ∧ (∀ e ∈ trim cap (h ++ [v]), e ∈ h ∨ e = v)
      ∧ (trim cap (h ++ [v]))[min (L + 1) cap - 1]? = some v
      ∧ (∀ (j : Nat) (m : ℚ), h[j]? = some m → 1 ≤ j →
          ∃ j1 : Nat, (trim cap (h ++ [v]))[j1]? = some m ∧ j ≤ j1 + 1) := by
  rw [trim_eq_drop]
  have hlen : (h ++ [v]).length = L + 1 := by simp [hL]
  rw [hlen]
  refine ⟨?_, ?_, ?_, ?_⟩
  · rw [List.length_drop, hlen]
    omega
  · intro e he
    have := List.mem_of_mem_drop he
    simpa using this
  · rw [List.getElem?_drop]
    have e1 : L + 1 - cap + (min (L + 1) cap - 1) = L := by omega
    rw [e1, List.getElem?_append_right (by omega), hL]
    simp
  · intro j m hj h1
    have hjL : j < L := by
      have := (List.getElem?_eq_some_iff.mp hj).1
      omega
    refine ⟨j - (L + 1 - cap), ?_, by omega⟩
    rw [List.getElem?_drop]
    have e1 : L + 1 - cap + (j - (L + 1 - cap)) = j := by omega
    rw [e1, List.getElem?_append_left (by omega)]
    exact hj

theorem saveData_trackers (p : Provider) (name : Nat) (v : ℚ) (h : List ℚ) (L : Nat)
    (hh : p.history[name]? = some h) (hL : h.length = L)
    (hcap : L ≤ p.settings.graphSteps + 2) :
    ((saveData p name v).min, (saveData p name v).minIndex)
        = minStep (min (L + 1) (p.settings.graphSteps + 2)) (p.min, p.minIndex) v
      ∧ ((saveData p name v).max, (saveData p name v).maxIndex)
        = maxStep (min (L + 1) (p.settings.graphSteps + 2)) (p.max, p.maxIndex) v
      ∧ (saveData p name v).history.length = p.history.length := by
  have hlen := (trim_push_spec (p.settings.graphSteps + 2) L h v hL hcap (by omega)).1
  unfold saveData updateHistory
  dsimp only
  rw [hh]
  dsimp only
  rw [hlen]
  refine ⟨(trackPush_trackers _ _ _).1, (trackPush_trackers _ _ _).2, ?_⟩
  rw [trackPush_history]
  simp

theorem pushAll_trackers (ds : List ℚ) (L : Nat) :
    ∀ (p : Provider) (i : Nat), L ≤ p.settings.graphSteps + 2 →
      (∀ k, i < k → k ≤ i + ds.length → ∃ h, p.history[k]? = some h ∧ h.length = L) →
      ((pushAll p i ds).min, (pushAll p i ds).minIndex)
          = ds.foldl (minStep (min (L + 1) (p.settings.graphSteps + 2))) (p.min, p.minIndex)
        ∧ ((pushAll p i ds).max, (pushAll p i ds).maxIndex)
          = ds.foldl (maxStep (min (L + 1) (p.settings.graphSteps + 2))) (p.max, p.maxIndex)
        ∧ (pushAll p i ds).history.length = p.history.length := by
  induction ds with
  | nil => intro p i _ _; exact ⟨rfl, rfl, rfl⟩
  | cons d ds ih =>
    intro p i hcap hser
    obtain ⟨h, hh, hL⟩ := hser (i + 1) (by omega) (by simp)
    obtain ⟨t1, t2, t3⟩ := saveData_trackers p (i + 1) d h L hh hL hcap
    obtain ⟨s1, _, _, s4⟩ := saveData_fields p (i + 1) d
    have hser2 : ∀ k, i + 1 < k → k ≤ i + 1 + ds.length →
        ∃ h, (saveData p (i + 1) d).history[k]? = some h ∧ h.length = L := by
      intro k hk1 hk2
      rw [s4 k, if_neg (by omega)]
      exact hser k (by omega) (by simp only [List.length_cons]; omega)
    obtain ⟨a1, a2, a3⟩ := ih (saveData p (i + 1) d) (i + 1) (by rw [s1]; exact hcap) hser2
    unfold pushAll
    rw [List.foldl_cons, List.foldl_cons, a1, a2, a3, s1, t1, t2, t3]
    exact ⟨rfl, rfl, rfl⟩

theorem minStep_null (len : Nat) (k : Option Int) (v : ℚ) :
    minStep len (Bound.null, k) v = (Bound.num v, some (len : Int)) := by
  simp [minStep, Bound.falsy]

theorem minStep_num (len : Nat) (m : ℚ) (k : Option Int) (v : ℚ) (hm : m ≠ 0) :
    minStep len (Bound.num m, k) v
      = if m > v then (Bound.num v, some (len : Int)) else (Bound.num m, k) := by
  simp [minStep, Bound.falsy, Bound.gt, hm]

/-- The tracked minimum after a run of pushes that all leave their series at
length `len`: either nothing changed and no pushed value is below the tracked
one, or the tracker holds the least pushed value, which is below the old one. -/
theorem minStep_fold_spec (len : Nat) (vs : List ℚ) :
    ∀ (b : Bound) (k : Option Int), (b = Bound.null ∨ ∃ m, b = Bound.num m ∧ m ≠ 0) →
      (∀ v ∈ vs, v ≠ 0) →
      (vs.foldl (minStep len) (b, k) = (b, k) ∧ ∀ v ∈ vs, ∃ m, b = Bound.num m ∧ m ≤ v)
        ∨ (∃ v ∈ vs, vs.foldl (minStep len) (b, k) = (Bound.num v, some (len : Int))
            ∧ (∀ w ∈ vs, v ≤ w) ∧ ∀ m, b = Bound.num m → v < m) := by
  induction vs with
  | nil => intro b k _ _; left; simp
  | cons x xs ih =>
    intro b k hb hnz
    have hx : x ≠ 0 := hnz x (List.mem_cons_self _ _)
    have hxs : ∀ v ∈ xs, v ≠ 0 := fun v hv => hnz v (List.mem_cons_of_mem _ hv)
    rw [List.foldl_cons]
    -- the two possible outcomes of the first step
    have hnew : minStep len (b, k) x = (Bound.num x, some (len : Int)) →
        (∀ m, b = Bound.num m → x < m) →
        ∃ v ∈ x :: xs, xs.foldl (minStep len) (minStep len (b, k) x)
            = (Bound.num v, some (len : Int))
          ∧ (∀ w ∈ x :: xs, v ≤ w) ∧ ∀ m, b = Bound.num m → v < m := by
      intro hs hlt
      rw [hs]
      rcases ih (Bound.num x) (some (len : Int)) (Or.inr ⟨x, rfl, hx⟩) hxs with ⟨h1, h2⟩ | ⟨v, hv, h1, h2, h3⟩
      · refine ⟨x, List.mem_cons_self _ _, h1, ?_, hlt⟩
        intro w hw
        rcases List.mem_cons.mp hw with rfl | hw
        · exact le_refl _
        · obtain ⟨m, hm, hle⟩ := h2 w hw
          cases hm
          exact hle
      · have hvx : v < x := h3 x rfl
        refine ⟨v, List.mem_cons_of_mem _ hv, h1, ?_, ?_⟩
        · intro w hw
          rcases List.mem_cons.mp hw with rfl | hw
          · exact le_of_lt hvx
          · exact h2 w hw
        · intro m hm
          exact lt_trans hvx (hlt m hm)
    rcases hb with rfl | ⟨m, rfl, hm⟩
    · right
      exact hnew (minStep_null len k x) (fun m hm => by cases hm)
    · by_cases hgt : m > x
      · right
        refine hnew (by rw [minStep_num len m k x hm, if_pos hgt]) ?_
        intro m1 hm1
        cases hm1
        exact hgt
      · have hle : m ≤ x := not_lt.mp hgt
        have hs : minStep len (Bound.num m, k) x = (Bound.num m, k) := by
          rw [minStep_num len m k x hm, if_neg hgt]
        rw [hs]
        rcases ih (Bound.num m) k (Or.inr ⟨m, rfl, hm⟩) hxs with ⟨h1, h2⟩ | ⟨v, hv, h1, h2, h3⟩
        · left
          refine ⟨h1, ?_⟩
          intro w hw
          rcases List.mem_cons.mp hw with rfl | hw
          · exact ⟨m, rfl, hle⟩
          · exact h2 w hw
        · right
          have hvm : v < m := h3 m rfl
          refine ⟨v, List.mem_cons_of_mem _ hv, h1, ?_, h3⟩
          intro w hw
          rcases List.mem_cons.mp hw with rfl | hw
          · exact le_of_lt (lt_of_lt_of_le hvm hle)
          · exact h2 w hw

/-- The rescan of one series for the minimum, from loop index `j` on. -/
theorem scanMinFrom_spec (rest : List ℚ) :
    ∀ (j : Nat) (b : Bound) (i0 : Int), b ≠ Bound.undefined →
      (scanMinFrom j rest (b, i0) = (b, i0) ∧ ∀ e ∈ rest, ∃ m, b = Bound.num m ∧ m ≤ e)
        ∨ (∃ (i : Nat) (e : ℚ), rest[i]? = some e
            ∧ scanMinFrom j rest (b, i0) = (Bound.num e, ((j + i : Nat) : Int))
            ∧ (∀ w ∈ rest, e ≤ w) ∧ ∀ m, b = Bound.num m → e < m) := by
  induction rest with
  | nil => intro j b i0 _; left; simp [scanMinFrom]
  | cons x xs ih =>
    intro j b i0 hacc
    unfold scanMinFrom
    have hnew : (∀ m, b = Bound.num m → x < m) →
        ∃ (i : Nat) (e : ℚ), (x :: xs)[i]? = some e
          ∧ scanMinFrom (j + 1) xs (Bound.num x, (j : Int)) = (Bound.num e, ((j + i : Nat) : Int))
          ∧ (∀ w ∈ x :: xs, e ≤ w) ∧ ∀ m, b = Bound.num m → e < m := by
      intro hlt
      rcases ih (j + 1) (Bound.num x) (j : Int) (by simp) with ⟨h1, h2⟩ | ⟨i, e, hi, h1, h2, h3⟩
      · refine ⟨0, x, by simp, by rw [h1]; rfl, ?_, hlt⟩
        intro w hw
        rcases List.mem_cons.mp hw with rfl | hw
        · exact le_refl _
        · obtain ⟨m, hm, hle⟩ := h2 w hw
          cases hm
          exact hle
      · have hex : e < x := h3 x rfl
        refine ⟨i + 1, e, by simpa using hi, ?_, ?_, ?_⟩
        · rw [h1]
          congr 2
          omega
        · intro w hw
          rcases List.mem_cons.mp hw with rfl | hw
          · exact le_of_lt hex
          · exact h2 w hw
        · intro m hm
          exact lt_trans hex (hlt m hm)
    cases b with
    | undefined => exact absurd rfl hacc
    | null =>
      right
      simp only [true_or, if_true]
      exact hnew (fun m hm => by cases hm)
    | num m =>
      by_cases hgt : m > x
      · right
        have : (Bound.num m = Bound.null ∨ (Bound.num m).gt x = true) := by
          right; simp [Bound.gt, hgt]
        rw [if_pos this]
        refine hnew ?_
        intro m1 hm1
        cases hm1
        exact hgt
      · have hle : m ≤ x := not_lt.mp hgt
        have : ¬ (Bound.num m = Bound.null ∨ (Bound.num m).gt x = true) := by
          simp [Bound.gt, hle]
        rw [if_neg this]
        rcases ih (j + 1) (Bound.num m) i0 hacc with ⟨h1, h2⟩ | ⟨i, e, hi, h1, h2, h3⟩
        · left
          refine ⟨h1, ?_⟩
          intro w hw
          rcases List.mem_cons.mp hw with rfl | hw
          · exact ⟨m, rfl, hle⟩
          · exact h2 w hw
        · right
          have hem : e < m := h3 m rfl
          refine ⟨i + 1, e, by simpa using hi, ?_, ?_, h3⟩
          · rw [h1]
            congr 2
            omega
          · intro w hw
            rcases List.mem_cons.mp hw with rfl | hw
            · exact le_of_lt (lt_of_lt_of_le hem hle)
            · exact h2 w hw

/-- The full rescan for the minimum, started from the accumulator `(b, i0)`. -/
theorem rescanMin_fold_spec (hs : List (List ℚ)) :
    ∀ (b : Bound) (i0 : Int), b ≠ Bound.undefined →
      (hs.foldl (fun acc h => scanMinFrom 0 h acc) (b, i0) = (b, i0)
          ∧ ∀ h ∈ hs, ∀ e ∈ h, ∃ m, b = Bound.num m ∧ m ≤ e)
        ∨ (∃ h ∈ hs, ∃ (i : Nat) (e : ℚ), h[i]? = some e
            ∧ hs.foldl (fun acc h => scanMinFrom 0 h acc) (b, i0) = (Bound.num e, (i : Int))
            ∧ (∀ h1 ∈ hs, ∀ w ∈ h1, e ≤ w) ∧ ∀ m, b = Bound.num m → e < m) := by
  induction hs with
  | nil => intro b i0 _; left; simp
  | cons h0 hs ih =>
    intro b i0 hb
    rw [List.foldl_cons]
    rcases scanMinFrom_spec h0 0 b i0 hb with ⟨s1, s2⟩ | ⟨i, e0, hi, s1, s2, s3⟩
    · rw [s1]
      rcases ih b i0 hb with ⟨f1, f2⟩ | ⟨h, hh, i, e, hi, f1, f2, f3⟩
      · left
        refine ⟨f1, ?_⟩
        intro h1 hh1 w hw
        rcases List.mem_cons.mp hh1 with rfl | hh1
        · exact s2 w hw
        · exact f2 h1 hh1 w hw
      · right
        refine ⟨h, List.mem_cons_of_mem _ hh, i, e, hi, f1, ?_, f3⟩
        intro h1 hh1 w hw
        rcases List.mem_cons.mp hh1 with rfl | hh1
        · obtain ⟨m, hm, hle⟩ := s2 w hw
          exact le_of_lt (lt_of_lt_of_le (f3 m hm) hle)
        · exact f2 h1 hh1 w hw
    · rw [s1]
      simp only [Nat.zero_add]
      rcases ih (Bound.num e0) (i : Int) (by simp) with ⟨f1, f2⟩ | ⟨h, hh, i1, e, hi1, f1, f2, f3⟩
      · right
        refine ⟨h0, List.mem_cons_self _ _, i, e0, hi, f1, ?_, s3⟩
        intro h1 hh1 w hw
        rcases List.mem_cons.mp hh1 with rfl | hh1
        · exact s2 w hw
        · obtain ⟨m, hm, hle⟩ := f2 h1 hh1 w hw
          cases hm
          exact hle
      · right
        have hlt : e < e0 := f3 e0 rfl
        refine ⟨h, List.mem_cons_of_mem _ hh, i1, e, hi1, f1, ?_, ?_⟩
        · intro h1 hh1 w hw
          rcases List.mem_cons.mp hh1 with rfl | hh1
          · exact le_of_lt (lt_of_lt_of_le hlt (s2 w hw))
          · exact f2 h1 hh1 w hw
        · intro m hm
          exact lt_trans hlt (s3 m hm)

theorem maxStep_null (len : Nat) (k : Option Int) (v : ℚ) :
    maxStep len (Bound.null, k) v = (Bound.num v, some (len : Int)) := by
  simp [maxStep, Bound.falsy]

theorem maxStep_num (len : Nat) (m : ℚ) (k : Option Int) (v : ℚ) (hm : m ≠ 0) :
    maxStep len (Bound.num m, k) v
      = if m < v then (Bound.num v, some (len : Int)) else (Bound.num m, k) := by
  simp [maxStep, Bound.falsy, Bound.lt, hm]

/-- The tracked maximum after a run of pushes that all leave their series at
length `len`: either nothing changed and no pushed value is above the tracked
one, or the tracker holds the greatest pushed value, which is above the old one. -/
theorem maxStep_fold_spec (len : Nat) (vs : List ℚ) :
    ∀ (b : Bound) (k : Option Int), (b = Bound.null ∨ ∃ m, b = Bound.num m ∧ m ≠ 0) →
      (∀ v ∈ vs, v ≠ 0) →
      (vs.foldl (maxStep len) (b, k) = (b, k) ∧ ∀ v ∈ vs, ∃ m, b = Bound.num m ∧ v ≤ m)
        ∨ (∃ v ∈ vs, vs.foldl (maxStep len) (b, k) = (Bound.num v, some (len : Int))
            ∧ (∀ w ∈ vs, w ≤ v) ∧ ∀ m, b = Bound.num m → m < v) := by
  induction vs with
  | nil => intro b k _ _; left; simp
  | cons x xs ih =>
    intro b k hb hnz
    have hx : x ≠ 0 := hnz x (List.mem_cons_self _ _)
    have hxs : ∀ v ∈ xs, v ≠ 0 := fun v hv => hnz v (List.mem_cons_of_mem _ hv)
    rw [List.foldl_cons]
    have hnew : maxStep len (b, k) x = (Bound.num x, some (len : Int)) →
        (∀ m, b = Bound.num m → m < x) →
        ∃ v ∈ x :: xs, xs.foldl (maxStep len) (maxStep len (b, k) x)
            = (Bound.num v, some (len : Int))
          ∧ (∀ w ∈ x :: xs, w ≤ v) ∧ ∀ m, b = Bound.num m → m < v := by
      intro hs hlt
      rw [hs]
      rcases ih (Bound.num x) (some (len : Int)) (Or.inr ⟨x, rfl, hx⟩) hxs with ⟨h1, h2⟩ | ⟨v, hv, h1, h2, h3⟩
      · refine ⟨x, List.mem_cons_self _ _, h1, ?_, hlt⟩
        intro w hw
        rcases List.mem_cons.mp hw with rfl | hw
        · exact le_refl _
        · obtain ⟨m, hm, hle⟩ := h2 w hw
          cases hm
          exact hle
      · have hvx : x < v := h3 x rfl
        refine ⟨v, List.mem_cons_of_mem _ hv, h1, ?_, ?_⟩
        · intro w hw
          rcases List.mem_cons.mp hw with rfl | hw
          · exact le_of_lt hvx
          · exact h2 w hw
        · intro m hm
          exact lt_trans (hlt m hm) hvx
    rcases hb with rfl | ⟨m, rfl, hm⟩
    · right
      exact hnew (maxStep_null len k x) (fun m hm => by cases hm)
    · by_cases hgt : m < x
      · right
        refine hnew (by rw [maxStep_num len m k x hm, if_pos hgt]) ?_
        intro m1 hm1
        cases hm1
        exact hgt
      · have hle : x ≤ m := not_lt.mp hgt
        have hs : maxStep len (Bound.num m, k) x = (Bound.num m, k) := by
          rw [maxStep_num len m k x hm, if_neg hgt]
        rw [hs]
        rcases ih (Bound.num m) k (Or.inr ⟨m, rfl, hm⟩) hxs with ⟨h1, h2⟩ | ⟨v, hv, h1, h2, h3⟩
        · left
          refine ⟨h1, ?_⟩
          intro w hw
          rcases List.mem_cons.mp hw with rfl | hw
          · exact ⟨m, rfl, hle⟩
          · exact h2 w hw
        · right
          have hvm : m < v := h3 m rfl
          refine ⟨v, List.mem_cons_of_mem _ hv, h1, ?_, h3⟩
          intro w hw
          rcases List.mem_cons.mp hw with rfl | hw
          · exact le_of_lt (lt_of_le_of_lt hle hvm)
          · exact h2 w hw

/-- The rescan of one series for the maximum, from loop index `j` on. -/
theorem scanMaxFrom_spec (rest : List ℚ) :
    ∀ (j : Nat) (m : ℚ) (i0 : Int),
      (scanMaxFrom j rest (Bound.num m, i0) = (Bound.num m, i0) ∧ ∀ e ∈ rest, e ≤ m)
        ∨ (∃ (i : Nat) (e : ℚ), rest[i]? = some e
            ∧ scanMaxFrom j rest (Bound.num m, i0) = (Bound.num e, ((j + i : Nat) : Int))
            ∧ (∀ w ∈ rest, w ≤ e) ∧ m < e) := by
  induction rest with
  | nil => intro j m i0; left; simp [scanMaxFrom]
  | cons x xs ih =>
    intro j m i0
    unfold scanMaxFrom
    by_cases hlt : m < x
    · right
      have : (Bound.num m).lt x = true := by simp [Bound.lt, hlt]
      rw [if_pos this]
      rcases ih (j + 1) x (j : Int) with ⟨h1, h2⟩ | ⟨i, e, hi, h1, h2, h3⟩
      · refine ⟨0, x, by simp, by rw [h1]; rfl, ?_, hlt⟩
        intro w hw
        rcases List.mem_cons.mp hw with rfl | hw
        · exact le_refl _
        · exact h2 w hw
      · refine ⟨i + 1, e, by simpa using hi, ?_, ?_, lt_trans hlt h3⟩
        · rw [h1]
          congr 2
          omega
        · intro w hw
          rcases List.mem_cons.mp hw with rfl | hw
          · exact le_of_lt h3
          · exact h2 w hw
    · have hle : x ≤ m := not_lt.mp hlt
      have : ¬ ((Bound.num m).lt x = true) := by simp [Bound.lt, hle]
      rw [if_neg this]
      rcases ih (j + 1) m i0 with ⟨h1, h2⟩ | ⟨i, e, hi, h1, h2, h3⟩
      · left
        refine ⟨h1, ?_⟩
        intro w hw
        rcases List.mem_cons.mp hw with rfl | hw
        · exact hle
        · exact h2 w hw
      · right
        refine ⟨i + 1, e, by simpa using hi, ?_, ?_, h3⟩
        · rw [h1]
          congr 2
          omega
        · intro w hw
          rcases List.mem_cons.mp hw with rfl | hw
          · exact le_of_lt (lt_of_le_of_lt hle h3)
          · exact h2 w hw

/-- The full rescan for the maximum, started from the accumulator `(m, i0)`. -/
theorem rescanMax_fold_spec (hs : List (List ℚ)) :
    ∀ (m : ℚ) (i0 : Int),
      (hs.foldl (fun acc h => scanMaxFrom 0 h acc) (Bound.num m, i0) = (Bound.num m, i0)
          ∧ ∀ h ∈ hs, ∀ e ∈ h, e ≤ m)
        ∨ (∃ h ∈ hs, ∃ (i : Nat) (e : ℚ), h[i]? = some e
            ∧ hs.foldl (fun acc h => scanMaxFrom 0 h acc) (Bound.num m, i0)
                = (Bound.num e, (i : Int))
            ∧ (∀ h1 ∈ hs, ∀ w ∈ h1, w ≤ e) ∧ m < e) := by
  induction hs with
  | nil => intro m i0; left; simp
  | cons h0 hs ih =>
    intro m i0
    rw [List.foldl_cons]
    rcases scanMaxFrom_spec h0 0 m i0 with ⟨s1, s2⟩ | ⟨i, e0, hi, s1, s2, s3⟩
    · rw [s1]
      rcases ih m i0 with ⟨f1, f2⟩ | ⟨h, hh, i, e, hi, f1, f2, f3⟩
      · left
        refine ⟨f1, ?_⟩
        intro h1 hh1 w hw
        rcases List.mem_cons.mp hh1 with rfl | hh1
        · exact s2 w hw
        · exact f2 h1 hh1 w hw
      · right
        refine ⟨h, List.mem_cons_of_mem _ hh, i, e, hi, f1, ?_, f3⟩
        intro h1 hh1 w hw
        rcases List.mem_cons.mp hh1 with rfl | hh1
        · exact le_of_lt (lt_of_le_of_lt (s2 w hw) f3)
        · exact f2 h1 hh1 w hw
    · rw [s1]
      simp only [Nat.zero_add]
      rcases ih e0 (i : Int) with ⟨f1, f2⟩ | ⟨h, hh, i1, e, hi1, f1, f2, f3⟩
      · right
        refine ⟨h0, List.mem_cons_self _ _, i, e0, hi, f1, ?_, s3⟩
        intro h1 hh1 w hw
        rcases List.mem_cons.mp hh1 with rfl | hh1
        · exact s2 w hw
        · exact f2 h1 hh1 w hw
      · right
        refine ⟨h, List.mem_cons_of_mem _ hh, i1, e, hi1, f1, ?_, lt_trans s3 f3⟩
        intro h1 hh1 w hw
        rcases List.mem_cons.mp hh1 with rfl | hh1
        · exact le_of_lt (lt_of_le_of_lt (s2 w hw) f3)
        · exact f2 h1 hh1 w hw

theorem updateMinMax_trackers (p : Provider) (hmin : p.min ≠ Bound.undefined)
    (hmax : p.max ≠ Bound.undefined) :
    ((updateMinMax p).min, (updateMinMax p).minIndex)
        = (if leZero (p.minIndex.map (fun x => x - 1)) = true then
            ((rescanMin p.history).1, some (rescanMin p.history).2)
          else (p.min, p.minIndex.map (fun x => x - 1)))
      ∧ ((updateMinMax p).max, (updateMinMax p).maxIndex)
        = (if leZero (p.maxIndex.map (fun x => x - 1)) = true then
            ((rescanMax p.history).1, some (rescanMax p.history).2)
          else (p.max, p.maxIndex.map (fun x => x - 1))) := by
  unfold updateMinMax
  dsimp only
  rw [if_pos hmin]
  by_cases h1 : leZero (p.minIndex.map (fun x => x - 1)) = true
  · rw [if_pos h1, if_pos h1]
    dsimp only
    rw [if_pos hmax]
    by_cases h2 : leZero (p.maxIndex.map (fun x => x - 1)) = true
    · rw [if_pos h2, if_pos h2]
      exact ⟨rfl, rfl⟩
    · rw [if_neg h2, if_neg h2]
      exact ⟨rfl, rfl⟩
  · rw [if_neg h1, if_neg h1]
    dsimp only
    rw [if_pos hmax]
    by_cases h2 : leZero (p.maxIndex.map (fun x => x - 1)) = true
    · rw [if_pos h2, if_pos h2]
      exact ⟨rfl, rfl⟩
    · rw [if_neg h2, if_neg h2]
      exact ⟨rfl, rfl⟩

/-- The series after a tick that pushed entry `k` of `vals` to series `k`. -/
theorem pushed_history_facts (cap L : Nat) (H H1 : List (List ℚ)) (vals : List ℚ)
    (hlen : H.length = vals.length)
    (hpt : ∀ k : Nat, H1[k]? = pushed cap H[k]? vals[k]?)
    (huni : ∀ h ∈ H, h.length = L) (hcap : L ≤ cap) (hpos : 1 ≤ cap) :
    (∀ h2 ∈ H1, h2.length = min (L + 1) cap)
      ∧ (∀ h2 ∈ H1, ∀ e ∈ h2, (∃ h ∈ H, e ∈ h) ∨ e ∈ vals)
      ∧ (∀ v ∈ vals, ∃ h2 ∈ H1, h2[min (L + 1) cap - 1]? = some v)
      ∧ (∀ h ∈ H, ∀ (j : Nat) (m : ℚ), h[j]? = some m → 1 ≤ j →
          ∃ h2 ∈ H1, ∃ j1 : Nat, h2[j1]? = some m ∧ j ≤ j1 + 1) := by
  have key : ∀ (k : Nat) (h2 : List ℚ), H1[k]? = some h2 →
      ∃ h v, H[k]? = some h ∧ vals[k]? = some v ∧ h2 = trim cap (h ++ [v]) := by
    intro k h2 hk
    rw [hpt k] at hk
    cases hH : H[k]? with
    | none => rw [hH] at hk; simp [pushed] at hk
    | some h =>
      have hkl : k < vals.length := by
        have := (List.getElem?_eq_some_iff.mp hH).1
        omega
      rw [hH, List.getElem?_eq_getElem hkl] at hk
      simp only [pushed, Option.some.injEq] at hk
      exact ⟨h, vals[k], rfl, List.getElem?_eq_getElem hkl, hk.symm⟩
  have key2 : ∀ (k : Nat) (h : List ℚ) (v : ℚ), H[k]? = some h → vals[k]? = some v →
      H1[k]? = some (trim cap (h ++ [v])) := by
    intro k h v hH hv
    rw [hpt k, hH, hv]
    rfl
  refine ⟨?_, ?_, ?_, ?_⟩
  · intro h2 hh2
    obtain ⟨k, hk⟩ := List.mem_iff_getElem?.mp hh2
    obtain ⟨h, v, hH, _, rfl⟩ := key k h2 hk
    exact (trim_push_spec cap L h v (huni h (List.getElem?_mem hH)) hcap hpos).1
  · intro h2 hh2 e he
    obtain ⟨k, hk⟩ := List.mem_iff_getElem?.mp hh2
    obtain ⟨h, v, hH, hv, rfl⟩ := key k h2 hk
    have hmemH := List.getElem?_mem hH
    rcases (trim_push_spec cap L h v (huni h hmemH) hcap hpos).2.1 e he with h1 | h1
    · exact Or.inl ⟨h, hmemH, h1⟩
    · right
      rw [h1]
      exact List.getElem?_mem hv
  · intro v hv
    obtain ⟨k, hk⟩ := List.mem_iff_getElem?.mp hv
    have hkl : k < H.length := by
      have := (List.getElem?_eq_some_iff.mp hk).1
      omega
    have hH : H[k]? = some H[k] := List.getElem?_eq_getElem hkl
    refine ⟨_, List.getElem?_mem (key2 k _ v hH hk), ?_⟩
    exact (trim_push_spec cap L _ v (huni _ (List.getElem?_mem hH)) hcap hpos).2.2.1
  · intro h hh j m hj h1
    obtain ⟨k, hk⟩ := List.mem_iff_getElem?.mp hh
    have hkl : k < vals.length := by
      have := (List.getElem?_eq_some_iff.mp hk).1
      omega
    have hv : vals[k]? = some vals[k] := List.getElem?_eq_getElem hkl
    obtain ⟨j1, hj1, hle⟩ := (trim_push_spec cap L h vals[k] (huni h hh) hcap hpos).2.2.2 j m hj h1
    exact ⟨_, List.getElem?_mem (key2 k h _ hk hv), j1, hj1, hle⟩

theorem sum_ge_length (ds : List ℚ) (h : ∀ d ∈ ds, (1 : ℚ) ≤ d) : (ds.length : ℚ) ≤ ds.sum := by
  induction ds with
  | nil => simp
  | cons x xs ih =>
    have hx := h x (List.mem_cons_self _ _)
    have hxs := ih (fun d hd => h d (List.mem_cons_of_mem _ hd))
    simp only [List.length_cons, List.sum_cons]
    push_cast
    linarith

/-- The aggregate of samples that are all at least `1` is at least `1`. -/
theorem aggregate_ge_one (mode : String) (ds : List ℚ) (agg : ℚ)
    (h : ∀ d ∈ ds, (1 : ℚ) ≤ d) (hagg : aggregateOf mode ds.length ds = some agg) :
    1 ≤ agg := by
  cases ds with
  | nil => simp [aggregateOf] at hagg
  | cons d0 ds =>
    rw [aggregateOf_cons] at hagg
    simp only [Option.some.injEq] at hagg
    rw [← hagg]
    by_cases hmin : mode = "min"
    · rw [if_pos hmin]
      exact h _ (foldl_min_spec ds d0).1
    · rw [if_neg hmin]
      by_cases havg : mode = "avg"
      · rw [if_pos havg]
        have hs := sum_ge_length (d0 :: ds) h
        have hpos : (0 : ℚ) < ((d0 :: ds).length : ℚ) := by
          simp only [List.length_cons]
          push_cast
          positivity
        rw [le_div_iff₀ hpos, one_mul]
        simpa using hs
      · rw [if_neg havg]
        by_cases hmax : mode = "max"
        · rw [if_pos hmax]
          exact h _ (foldl_max_spec ds d0).1
        · rw [if_neg hmax]
          exact h d0 (List.mem_cons_self _ _)

/-- The minimum tracker after a tick, from the facts about the pushed series:
`(b, k)` is the tracker before the tick, `vs` the values in push order, `H` and
`H1` the series before and after. -/
theorem min_tracker_after (H H1 : List (List ℚ)) (vals vs : List ℚ) (L L1 : Nat)
    (b : Bound) (k : Option Int) (hL1 : 1 ≤ L1)
    (hvs : ∀ v, v ∈ vs ↔ v ∈ vals) (hvsne : vs ≠ [])
    (hge : ∀ v ∈ vals, (1 : ℚ) ≤ v)
    (hold : (L = 0 ∧ b = Bound.null) ∨
      ∃ (m : ℚ) (k0 : Int), b = Bound.num m ∧ k = some k0
        ∧ (∀ h ∈ H, ∀ e ∈ h, m ≤ e)
        ∧ ∃ h ∈ H, ∃ j : Nat, h[j]? = some m ∧ k0 ≤ (j : Int))
    (huniH : ∀ h ∈ H, h.length = L)
    (hgeH : ∀ h ∈ H, ∀ e ∈ h, (1 : ℚ) ≤ e)
    (f2 : ∀ h2 ∈ H1, ∀ e ∈ h2, (∃ h ∈ H, e ∈ h) ∨ e ∈ vals)
    (f3 : ∀ v ∈ vals, ∃ h2 ∈ H1, h2[L1 - 1]? = some v)
    (f4 : ∀ h ∈ H, ∀ (j : Nat) (m : ℚ), h[j]? = some m → 1 ≤ j →
        ∃ h2 ∈ H1, ∃ j1 : Nat, h2[j1]? = some m ∧ j ≤ j1 + 1)
    (res : Bound × Option Int)
    (hres : res =
      if leZero ((vs.foldl (minStep L1) (b, k)).2.map (fun x => x - 1)) = true then
        ((rescanMin H1).1, some (rescanMin H1).2)
      else ((vs.foldl (minStep L1) (b, k)).1,
            (vs.foldl (minStep L1) (b, k)).2.map (fun x => x - 1))) :
    ∃ (m : ℚ) (k1 : Int), res = (Bound.num m, some k1)
      ∧ (∀ h ∈ H1, ∀ e ∈ h, m ≤ e)
      ∧ ∃ h ∈ H1, ∃ j : Nat, h[j]? = some m ∧ k1 ≤ (j : Int) := by
  have hb : b = Bound.null ∨ ∃ m, b = Bound.num m ∧ m ≠ 0 := by
    rcases hold with ⟨_, h⟩ | ⟨m, k0, hm, _, _, h, hh, j, hj, _⟩
    · exact Or.inl h
    · refine Or.inr ⟨m, hm, ?_⟩
      have := hgeH h hh m (List.getElem?_mem hj)
      intro h0
      rw [h0] at this
      exact absurd this (by norm_num)
  have hnz : ∀ v ∈ vs, v ≠ 0 := by
    intro v hv h0
    have := hge v ((hvs v).mp hv)
    rw [h0] at this
    exact absurd this (by norm_num)
  obtain ⟨v0, hv0⟩ := List.exists_mem_of_ne_nil vs hvsne
  obtain ⟨g0, hg0, hg0v⟩ := f3 v0 ((hvs v0).mp hv0)
  by_cases hz : leZero ((vs.foldl (minStep L1) (b, k)).2.map (fun x => x - 1)) = true
  · rw [if_pos hz] at hres
    unfold rescanMin at hres
    rcases rescanMin_fold_spec H1 Bound.null 0 (by simp) with ⟨_, hall⟩ | ⟨h, hh, i, e, hi, hf, hle, _⟩
    · obtain ⟨m, hm, _⟩ := hall g0 hg0 v0 (List.getElem?_mem hg0v)
      cases hm
    · rw [hf] at hres
      exact ⟨e, i, hres, hle, h, hh, i, hi, le_refl _⟩
  · rw [if_neg hz] at hres
    rcases minStep_fold_spec L1 vs b k hb hnz with ⟨hA1, hA2⟩ | ⟨v, hv, hB1, hB2, hB3⟩
    · rw [hA1] at hres hz
      obtain ⟨m, hbm, _⟩ := hA2 v0 hv0
      rcases hold with ⟨_, hnull⟩ | ⟨m1, k0, hm1, hk0, hbound, h, hh, j, hj, hkj⟩
      · rw [hnull] at hbm
        cases hbm
      · rw [hk0] at hres hz
        simp only [Option.map_some', leZero, decide_eq_true_eq, not_le] at hz
        simp only [Option.map_some'] at hres
        have hj1 : 1 ≤ j := by omega
        obtain ⟨h2, hh2, j1, hj1m, hjj⟩ := f4 h hh j m1 hj hj1
        refine ⟨m1, k0 - 1, by rw [hres, hm1], ?_, h2, hh2, j1, hj1m, by omega⟩
        intro g hg e he
        rcases f2 g hg e he with ⟨h3, hh3, he3⟩ | hnew
        · exact hbound h3 hh3 e he3
        · obtain ⟨m2, hm2, hle⟩ := hA2 e ((hvs e).mpr hnew)
          rw [hm1] at hm2
          cases hm2
          exact hle
    · rw [hB1] at hres hz
      simp only [Option.map_some'] at hres
      obtain ⟨h2, hh2, hlast⟩ := f3 v ((hvs v).mp hv)
      refine ⟨v, (L1 : Int) - 1, hres, ?_, h2, hh2, L1 - 1, hlast, by omega⟩
      intro g hg e he
      rcases f2 g hg e he with ⟨h3, hh3, he3⟩ | hnew
      · rcases hold with ⟨hL0, _⟩ | ⟨m1, k0, hm1, _, hbound, _⟩
        · have := huniH h3 hh3
          rw [hL0] at this
          rw [List.length_eq_zero.mp this] at he3
          cases he3
        · exact le_of_lt (lt_of_lt_of_le (hB3 m1 hm1) (hbound h3 hh3 e he3))
      · exact hB2 e ((hvs e).mpr hnew)

/-- The maximum tracker after a tick; the rescan starts from `1`, which the
samples, all at least `1`, reach. -/
theorem max_tracker_after (H H1 : List (List ℚ)) (vals vs : List ℚ) (L L1 : Nat)
    (b : Bound) (k : Option Int) (hL1 : 1 ≤ L1)
    (hvs : ∀ v, v ∈ vs ↔ v ∈ vals) (hvsne : vs ≠ [])
    (hge : ∀ v ∈ vals, (1 : ℚ) ≤ v)
    (hold : (L = 0 ∧ b = Bound.null) ∨
      ∃ (m : ℚ) (k0 : Int), b = Bound.num m ∧ k = some k0
        ∧ (∀ h ∈ H, ∀ e ∈ h, e ≤ m)
        ∧ ∃ h ∈ H, ∃ j : Nat, h[j]? = some m ∧ k0 ≤ (j : Int))
    (huniH : ∀ h ∈ H, h.length = L)
    (hgeH : ∀ h ∈ H, ∀ e ∈ h, (1 : ℚ) ≤ e)
    (f2 : ∀ h2 ∈ H1, ∀ e ∈ h2, (∃ h ∈ H, e ∈ h) ∨ e ∈ vals)
    (f3 : ∀ v ∈ vals, ∃ h2 ∈ H1, h2[L1 - 1]? = some v)
    (f4 : ∀ h ∈ H, ∀ (j : Nat) (m : ℚ), h[j]? = some m → 1 ≤ j →
        ∃ h2 ∈ H1, ∃ j1 : Nat, h2[j1]? = some m ∧ j ≤ j1 + 1)
    (res : Bound × Option Int)
    (hres : res =
      if leZero ((vs.foldl (maxStep L1) (b, k)).2.map (fun x => x - 1)) = true then
        ((rescanMax H1).1, some (rescanMax H1).2)
      else ((vs.foldl (maxStep L1) (b, k)).1,
            (vs.foldl (maxStep L1) (b, k)).2.map (fun x => x - 1))) :
    ∃ (m : ℚ) (k1 : Int), res = (Bound.num m, some k1)
      ∧ (∀ h ∈ H1, ∀ e ∈ h, e ≤ m)
      ∧ ∃ h ∈ H1, ∃ j : Nat, h[j]? = some m ∧ k1 ≤ (j : Int) := by
  have hb : b = Bound.null ∨ ∃ m, b = Bound.num m ∧ m ≠ 0 := by
    rcases hold with ⟨_, h⟩ | ⟨m, k0, hm, _, _, h, hh, j, hj, _⟩
    · exact Or.inl h
    · refine Or.inr ⟨m, hm, ?_⟩
      have := hgeH h hh m (List.getElem?_mem hj)
      intro h0
      rw [h0] at this
      exact absurd this (by norm_num)
  have hnz : ∀ v ∈ vs, v ≠ 0 := by
    intro v hv h0
    have := hge v ((hvs v).mp hv)
    rw [h0] at this
    exact absurd this (by norm_num)
  obtain ⟨v0, hv0⟩ := List.exists_mem_of_ne_nil vs hvsne
  obtain ⟨g0, hg0, hg0v⟩ := f3 v0 ((hvs v0).mp hv0)
  by_cases hz : leZero ((vs.foldl (maxStep L1) (b, k)).2.map (fun x => x - 1)) = true
  · rw [if_pos hz] at hres
    unfold rescanMax at hres
    rcases rescanMax_fold_spec H1 1 0 with ⟨hf, hall⟩ | ⟨h, hh, i, e, hi, hf, hle, _⟩
    · rw [hf] at hres
      have h1 : v0 ≤ 1 := hall g0 hg0 v0 (List.getElem?_mem hg0v)
      have h2 : 1 ≤ v0 := hge v0 ((hvs v0).mp hv0)
      have h3 : v0 = 1 := le_antisymm h1 h2
      rw [h3] at hg0v
      exact ⟨1, 0, hres, hall, g0, hg0, L1 - 1, hg0v, by omega⟩
    · rw [hf] at hres
      exact ⟨e, i, hres, hle, h, hh, i, hi, le_refl _⟩
  · rw [if_neg hz] at hres
    rcases maxStep_fold_spec L1 vs b k hb hnz with ⟨hA1, hA2⟩ | ⟨v, hv, hB1, hB2, hB3⟩
    · rw [hA1] at hres hz
      obtain ⟨m, hbm, _⟩ := hA2 v0 hv0
      rcases hold with ⟨_, hnull⟩ | ⟨m1, k0, hm1, hk0, hbound, h, hh, j, hj, hkj⟩
      · rw [hnull] at hbm
        cases hbm
      · rw [hk0] at hres hz
        simp only [Option.map_some', leZero, decide_eq_true_eq, not_le] at hz
        simp only [Option.map_some'] at hres
        have hj1 : 1 ≤ j := by omega
        obtain ⟨h2, hh2, j1, hj1m, hjj⟩ := f4 h hh j m1 hj hj1
        refine ⟨m1, k0 - 1, by rw [hres, hm1], ?_, h2, hh2, j1, hj1m, by omega⟩
        intro g hg e he
        rcases f2 g hg e he with ⟨h3, hh3, he3⟩ | hnew
        · exact hbound h3 hh3 e he3
        · obtain ⟨m2, hm2, hle⟩ := hA2 e ((hvs e).mpr hnew)
          rw [hm1] at hm2
          cases hm2
          exact hle
    · rw [hB1] at hres hz
      simp only [Option.map_some'] at hres
      obtain ⟨h2, hh2, hlast⟩ := f3 v ((hvs v).mp hv)
      refine ⟨v, (L1 : Int) - 1, hres, ?_, h2, hh2, L1 - 1, hlast, by omega⟩
      intro g hg e he
      rcases f2 g hg e he with ⟨h3, hh3, he3⟩ | hnew
      · rcases hold with ⟨hL0, _⟩ | ⟨m1, k0, hm1, _, hbound, _⟩
        · have := huniH h3 hh3
          rw [hL0] at this
          rw [List.length_eq_zero.mp this] at he3
          cases he3
        · exact le_of_lt (lt_of_le_of_lt (hbound h3 hh3 e he3) (hB3 m1 hm1))
      · exact hB2 e ((hvs e).mpr hnew)

theorem exists_map_some (l : List (Option ℚ)) (h : none ∉ l) :
    ∃ ds : List ℚ, l = ds.map some := by
  induction l with
  | nil => exact ⟨[], rfl⟩
  | cons x xs ih =>
    cases x with
    | none => exact absurd (List.mem_cons_self _ _) h
    | some v =>
      obtain ⟨ds, hds⟩ := ih (fun h1 => h (List.mem_cons_of_mem _ h1))
      exact ⟨v :: ds, by rw [hds]; rfl⟩

theorem bound_start_of_inv (H : List (List ℚ)) (L : Nat) (b : Bound) (k : Option Int)
    (hgeH : ∀ h ∈ H, ∀ e ∈ h, (1 : ℚ) ≤ e)
    (hold : (L = 0 ∧ b = Bound.null) ∨
      ∃ (m : ℚ) (k0 : Int), b = Bound.num m ∧ k = some k0
        ∧ ∃ h ∈ H, ∃ j : Nat, h[j]? = some m ∧ k0 ≤ (j : Int)) :
    b = Bound.null ∨ ∃ m, b = Bound.num m ∧ m ≠ 0 := by
  rcases hold with ⟨_, h⟩ | ⟨m, k0, hm, _, h, hh, j, hj, _⟩
  · exact Or.inl h
  · refine Or.inr ⟨m, hm, ?_⟩
    have := hgeH h hh m (List.getElem?_mem hj)
    intro h0
    rw [h0] at this
    exact absurd this (by norm_num)

theorem minStep_fold_ne_undefined (len : Nat) (vs : List ℚ) (b : Bound) (k : Option Int)
    (hb : b = Bound.null ∨ ∃ m, b = Bound.num m ∧ m ≠ 0) (hnz : ∀ v ∈ vs, v ≠ 0) :
    (vs.foldl (minStep len) (b, k)).1 ≠ Bound.undefined := by
  rcases minStep_fold_spec len vs b k hb hnz with ⟨hA, _⟩ | ⟨v, _, hB, _⟩
  · rw [hA]
    rcases hb with h | ⟨m, hm, _⟩
    · rw [h]; simp
    · rw [hm]; simp
  · rw [hB]; simp

theorem maxStep_fold_ne_undefined (len : Nat) (vs : List ℚ) (b : Bound) (k : Option Int)
    (hb : b = Bound.null ∨ ∃ m, b = Bound.num m ∧ m ≠ 0) (hnz : ∀ v ∈ vs, v ≠ 0) :
    (vs.foldl (maxStep len) (b, k)).1 ≠ Bound.undefined := by
  rcases maxStep_fold_spec len vs b k hb hnz with ⟨hA, _⟩ | ⟨v, _, hB, _⟩
  · rw [hA]
    rcases hb with h | ⟨m, hm, _⟩
    · rw [h]; simp
    · rw [hm]; simp
  · rw [hB]; simp

/-- A completed tick whose parsed values are all at least `1` restores the
invariant, with every series one sample longer up to the bound. -/
theorem tick_preserves (dm : DataMatcher) (p p1 : Provider) (result : List String) (L : Nat)
    (inv : TickInv p L)
    (hge : ∀ d : ℚ, some d ∈ sensorValues dm result p.sensors → 1 ≤ d)
    (hok : getData dm p result = Except.ok p1) :
    TickInv p1 (min (L + 1) (p.settings.graphSteps + 2))
      ∧ p1.settings = p.settings ∧ p1.sensors = p.sensors := by
  have hnone : none ∉ sensorValues dm result p.sensors := by
    intro h
    rw [getData_error dm p result h] at hok
    cases hok
  obtain ⟨ds, hvals⟩ := exists_map_some _ hnone
  have hlen := sensorValues_length dm result p.sensors ds hvals
  have hdsne : ds ≠ [] := by
    intro h
    rw [h] at hlen
    exact inv.nonempty (List.length_eq_zero.mp hlen)
  have hds1 : ∀ d ∈ ds, (1 : ℚ) ≤ d := by
    intro d hd
    apply hge
    rw [hvals]
    exact List.mem_map_of_mem _ hd
  obtain ⟨agg, hagg⟩ : ∃ agg, aggregateOf p.settings.mode p.sensors.length ds = some agg := by
    cases ds with
    | nil => exact absurd rfl hdsne
    | cons d0 ds => exact ⟨_, aggregateOf_cons _ _ d0 ds⟩
  have hagg1 : (1 : ℚ) ≤ agg := by
    rw [hlen] at hagg
    exact aggregate_ge_one _ ds agg hds1 hagg
  have hp1 := getData_ok dm p result ds agg hvals hagg
  rw [hok] at hp1
  simp only [Except.ok.injEq] at hp1
  subst hp1
  obtain ⟨_, t2, t3, t4⟩ := tick_fields p ds agg
  obtain ⟨u1, _, _, u4⟩ := updateMinMax_fields (saveData (pushAll p 0 ds) 0 agg)
  obtain ⟨q1, _, _, q4⟩ := pushAll_fields ds p 0
  have hser : ∀ k, 0 < k → k ≤ 0 + ds.length → ∃ h, p.history[k]? = some h ∧ h.length = L := by
    intro k _ hk
    have hkl : k < p.history.length := by
      rw [inv.wf]
      omega
    exact ⟨p.history[k], List.getElem?_eq_getElem hkl, inv.uniform _ (List.getElem_mem hkl)⟩
  obtain ⟨a1, a2, a3⟩ := pushAll_trackers ds L p 0 inv.cap hser
  have h0l : 0 < p.history.length := by
    rw [inv.wf]
    omega
  have hh0 : (pushAll p 0 ds).history[0]? = some p.history[0] := by
    rw [q4 0, if_neg (by omega), List.getElem?_eq_getElem h0l]
  obtain ⟨b1, b2, b3⟩ := saveData_trackers (pushAll p 0 ds) 0 agg p.history[0] L hh0
    (inv.uniform _ (List.getElem_mem h0l)) (by rw [q1]; exact inv.cap)
  rw [q1, a1] at b1
  rw [q1, a2] at b2
  have hsnoc1 : (ds ++ [agg]).foldl (minStep (min (L + 1) (p.settings.graphSteps + 2)))
      (p.min, p.minIndex)
      = minStep (min (L + 1) (p.settings.graphSteps + 2))
          (ds.foldl (minStep (min (L + 1) (p.settings.graphSteps + 2))) (p.min, p.minIndex))
          agg := by
    rw [List.foldl_append]
    rfl
  have hsnoc2 : (ds ++ [agg]).foldl (maxStep (min (L + 1) (p.settings.graphSteps + 2)))
      (p.max, p.maxIndex)
      = maxStep (min (L + 1) (p.settings.graphSteps + 2))
          (ds.foldl (maxStep (min (L + 1) (p.settings.graphSteps + 2))) (p.max, p.maxIndex))
          agg := by
    rw [List.foldl_append]
    rfl
  rw [← hsnoc1] at b1
  rw [← hsnoc2] at b2
  have hvs : ∀ v, v ∈ ds ++ [agg] ↔ v ∈ agg :: ds := by
    intro v
    simp [or_comm]
  have hvals1 : ∀ v ∈ agg :: ds, (1 : ℚ) ≤ v := by
    intro v hv
    rcases List.mem_cons.mp hv with rfl | hv
    · exact hagg1
    · exact hds1 v hv
  have hnz : ∀ v ∈ ds ++ [agg], v ≠ 0 := by
    intro v hv h0
    have := hvals1 v ((hvs v).mp hv)
    rw [h0] at this
    exact absurd this (by norm_num)
  have hHlen : p.history.length = (agg :: ds).length := by
    rw [inv.wf, hlen]
    rfl
  obtain ⟨f1, f2, f3, f4⟩ := pushed_history_facts (p.settings.graphSteps + 2) L p.history
    (updateMinMax (saveData (pushAll p 0 ds) 0 agg)).history (agg :: ds) hHlen t2
    inv.uniform inv.cap (by omega)
  have hL1 : 1 ≤ min (L + 1) (p.settings.graphSteps + 2) := by omega
  have hbmin : p.min = Bound.null ∨ ∃ m, p.min = Bound.num m ∧ m ≠ 0 := by
    refine bound_start_of_inv p.history L p.min p.minIndex inv.ge_one ?_
    rcases inv.minOK with h | ⟨m, k0, hm, hk, _, hw⟩
    · exact Or.inl h
    · exact Or.inr ⟨m, k0, hm, hk, hw⟩
  have hbmax : p.max = Bound.null ∨ ∃ m, p.max = Bound.num m ∧ m ≠ 0 := by
    refine bound_start_of_inv p.history L p.max p.maxIndex inv.ge_one ?_
    rcases inv.maxOK with h | ⟨m, k0, hm, hk, _, hw⟩
    · exact Or.inl h
    · exact Or.inr ⟨m, k0, hm, hk, hw⟩
  have e1 : (saveData (pushAll p 0 ds) 0 agg).minIndex
      = ((ds ++ [agg]).foldl (minStep (min (L + 1) (p.settings.graphSteps + 2)))
          (p.min, p.minIndex)).2 := congrArg Prod.snd b1
  have e2 : (saveData (pushAll p 0 ds) 0 agg).min
      = ((ds ++ [agg]).foldl (minStep (min (L + 1) (p.settings.graphSteps + 2)))
          (p.min, p.minIndex)).1 := congrArg Prod.fst b1
  have e3 : (saveData (pushAll p 0 ds) 0 agg).maxIndex
      = ((ds ++ [agg]).foldl (maxStep (min (L + 1) (p.settings.graphSteps + 2)))
          (p.max, p.maxIndex)).2 := congrArg Prod.snd b2
  have e4 : (saveData (pushAll p 0 ds) 0 agg).max
      = ((ds ++ [agg]).foldl (maxStep (min (L + 1) (p.settings.graphSteps + 2)))
          (p.max, p.maxIndex)).1 := congrArg Prod.fst b2
  have hminne : (saveData (pushAll p 0 ds) 0 agg).min ≠ Bound.undefined := by
    rw [e2]
    exact minStep_fold_ne_undefined _ _ _ _ hbmin hnz
  have hmaxne : (saveData (pushAll p 0 ds) 0 agg).max ≠ Bound.undefined := by
    rw [e4]
    exact maxStep_fold_ne_undefined _ _ _ _ hbmax hnz
  obtain ⟨c1, c2⟩ := updateMinMax_trackers (saveData (pushAll p 0 ds) 0 agg) hminne hmaxne
  rw [e1, e2, ← u4] at c1
  rw [e3, e4, ← u4] at c2
  obtain ⟨m, k1, hm, hmb, hmw⟩ := min_tracker_after p.history _ (agg :: ds) (ds ++ [agg]) L _
    p.min p.minIndex hL1 hvs (by simp) hvals1 inv.minOK inv.uniform inv.ge_one f2 f3 f4 _ c1
  obtain ⟨M, k2, hM, hMb, hMw⟩ := max_tracker_after p.history _ (agg :: ds) (ds ++ [agg]) L _
    p.max p.maxIndex hL1 hvs (by simp) hvals1 inv.maxOK inv.uniform inv.ge_one f2 f3 f4 _ c2
  refine ⟨?_, t3, t4⟩
  refine
    { wf := ?_, nonempty := ?_, cap := ?_, uniform := f1, ge_one := ?_,
      minOK := ?_, maxOK := ?_ }
  · rw [u4, b3, a3, t4, inv.wf]
  · rw [t4]
    exact inv.nonempty
  · rw [t3]
    omega
  · intro h hh e he
    rcases f2 h hh e he with ⟨h3, hh3, he3⟩ | hnew
    · exact inv.ge_one h3 hh3 e he3
    · exact hvals1 e hnew
  · exact Or.inr ⟨m, k1, congrArg Prod.fst hm, congrArg Prod.snd hm, hmb, hmw⟩
  · exact Or.inr ⟨M, k2, congrArg Prod.fst hM, congrArg Prod.snd hM, hMb, hMw⟩

theorem runTicks_preserves (dm : DataMatcher) (ticks : List (List String)) :
    ∀ (p p1 : Provider) (L : Nat), TickInv p L →
      (∀ result ∈ ticks, ∀ d : ℚ, some d ∈ sensorValues dm result p.sensors → 1 ≤ d) →
      runTicks dm p ticks = Except.ok p1 →
      ∃ L1, TickInv p1 L1 ∧ (ticks ≠ [] → 1 ≤ L1) := by
  induction ticks with
  | nil =>
    intro p p1 L inv _ hrun
    simp only [runTicks, Except.ok.injEq] at hrun
    subst hrun
    exact ⟨L, inv, fun h => absurd rfl h⟩
  | cons result rest ih =>
    intro p p1 L inv hge hrun
    unfold runTicks at hrun
    cases hg : getData dm p result with
    | error e => rw [hg] at hrun; cases hrun
    | ok p2 =>
      rw [hg] at hrun
      dsimp only at hrun
      obtain ⟨inv2, hset, hsens⟩ := tick_preserves dm p p2 result L inv
        (hge result (List.mem_cons_self _ _)) hg
      obtain ⟨L1, inv1, hL1⟩ := ih p2 p1 _ inv2
        (fun r hr d hd => hge r (List.mem_cons_of_mem _ hr) d (by rw [← hsens]; exact hd)) hrun
      refine ⟨L1, inv1, fun _ => ?_⟩
      cases rest with
      | nil =>
        simp only [runTicks, Except.ok.injEq] at hrun
        subst hrun
        have h1 := inv2.uniform
        have h2 := inv1.uniform
        have hne : p2.history ≠ [] := by
          intro h0
          have := inv2.wf
          rw [h0] at this
          simp at this
        obtain ⟨h, hh⟩ := List.exists_mem_of_ne_nil _ hne
        rw [← h2 h hh, h1 h hh]
        omega
      | cons r rs => exact hL1 (by simp)

/-- The provider that `init` returns with at least one sensor satisfies the
invariant with empty series. -/
theorem init_inv (settings : Settings) (dm : DataMatcher) (lines : List String) (p0 : Provider)
    (hinit : init settings dm (some lines) = Except.ok p0) (havail : p0.unavailable = false) :
    TickInv p0 0 := by
  obtain ⟨p, hp, _, hh, hun, _, hmin, hmax⟩ := init_some_spec settings dm lines
  rw [hinit] at hp
  simp only [Except.ok.injEq] at hp
  subst hp
  refine
    { wf := ?_, nonempty := ?_, cap := by omega, uniform := ?_, ge_one := ?_,
      minOK := Or.inl ⟨rfl, hmin⟩, maxOK := Or.inl ⟨rfl, hmax⟩ }
  · rw [hh]
    simp
  · intro h0
    rw [hun, h0] at havail
    simp at havail
  · intro h hmem
    rw [hh] at hmem
    rcases List.mem_cons.mp hmem with rfl | hmem
    · rfl
    · rw [List.eq_of_mem_replicate hmem]
      rfl
  · intro h hmem e he
    rw [hh] at hmem
    rcases List.mem_cons.mp hmem with rfl | hmem
    · cases he
    · rw [List.eq_of_mem_replicate hmem] at he
      cases he

/-! ## Lemmas on the thermal formatter -/

/-- The unit formatter on a flag that is the string `"celsius"`: the number is
left alone and the glyph is the Celsius one. -/
theorem formatThermal_celsius (c : ℚ) :
    (formatThermal (UnitFlag.str "celsius") c).number = c
      ∧ (formatThermal (UnitFlag.str "celsius") c).unit = "℃" := by
  constructor
  · have h : (UnitFlag.str "celsius").truthy = true := by decide
    unfold formatThermal
    simp only [h, if_true]
  · rfl

/-! ## Lemmas on the completion of ticks -/

/-- A tick on at least one sensor whose lines all parse completes, and keeps
the recorded sensors. -/
theorem getData_total (dm : DataMatcher) (p : Provider) (result : List String)
    (hne : p.sensors ≠ []) (hall : none ∉ sensorValues dm result p.sensors) :
    ∃ p1, getData dm p result = Except.ok p1 ∧ p1.sensors = p.sensors := by
  obtain ⟨ds, hvals⟩ := exists_map_some _ hall
  have hlen := sensorValues_length dm result p.sensors ds hvals
  cases ds with
  | nil =>
    exfalso
    exact hne (List.length_eq_zero.mp hlen)
  | cons d0 ds =>
    have hagg := aggregateOf_cons p.settings.mode p.sensors.length d0 ds
    exact ⟨_, getData_ok dm p result (d0 :: ds) _ hvals hagg, (tick_fields p (d0 :: ds) _).2.2.2⟩

theorem runTicks_total (dm : DataMatcher) (ticks : List (List String)) :
    ∀ p : Provider, p.sensors ≠ [] →
      (∀ result ∈ ticks, none ∉ sensorValues dm result p.sensors) →
      ∃ p1, runTicks dm p ticks = Except.ok p1 := by
  induction ticks with
  | nil => intro p _ _; exact ⟨p, rfl⟩
  | cons result rest ih =>
    intro p hne hall
    obtain ⟨p2, hp2, hs2⟩ := getData_total dm p result hne (hall result (List.mem_cons_self _ _))
    obtain ⟨p1, hp1⟩ := ih p2 (by rw [hs2]; exact hne)
      (fun r hr => by rw [hs2]; exact hall r (List.mem_cons_of_mem _ hr))
    refine ⟨p1, ?_⟩
    unfold runTicks
    rw [hp2]
    exact hp1

/-! ## Claims -/

/-- C1: pushing `graphSteps + 2 + m` values one by one with `updateHistory` into
an empty series leaves a series of length exactly `graphSteps + 2` that holds
the last `graphSteps + 2` pushed values in push order, and after every single
push the series has at most `graphSteps + 2` entries. -/
theorem C1_rolling_history (p : Provider) (name m : Nat) (vs : List ℚ)
    (hempty : p.history[name]? = some [])
    (hlen : vs.length = p.settings.graphSteps + 2 + m) :
    (vs.foldl (fun s v => updateHistory s name v) p).history[name]? = some (vs.drop m)
      ∧ (vs.drop m).length = p.settings.graphSteps + 2
      ∧ ∀ k, 1 ≤ k → k ≤ vs.length →
          ∃ h, ((vs.take k).foldl (fun s v => updateHistory s name v) p).history[name]? = some h
            ∧ h.length ≤ p.settings.graphSteps + 2 := by
  refine ⟨?_, ?_, ?_⟩
  · have h := (pushes_eq_drop vs p name [] hempty (by simp)).1
    rw [h]
    simp only [List.nil_append, hlen]
    congr 2
    omega
  · rw [List.length_drop, hlen]
    omega
  · intro k _ _
    have h := (pushes_eq_drop (vs.take k) p name [] hempty (by simp)).1
    refine ⟨_, h, ?_⟩
    rw [List.length_drop]
    omega

/-- C1 at `graphSteps = 1`, `m = 2`: pushing `1, 2, 3, 4, 5` leaves `3, 4, 5`. -/
theorem C1_rolling_history_witness :
    ((([1, 2, 3, 4, 5] : List ℚ).foldl (fun s v => updateHistory s 0 v)
        (freshProvider ⟨1, 1000, "avg", false, 3, 80, "binary", "binary-byte"⟩)).history[0]?
        = some (([1, 2, 3, 4, 5] : List ℚ).drop 2))
      ∧ (([1, 2, 3, 4, 5] : List ℚ).drop 2).length = 1 + 2 :=
  let h := C1_rolling_history (freshProvider ⟨1, 1000, "avg", false, 3, 80, "binary", "binary-byte"⟩)
    0 2 [1, 2, 3, 4, 5] rfl rfl
  ⟨h.1, h.2.1⟩

/-- C3: with the countdown initialised to `warningTime = n ≥ 1`, a notification
is fired on tick `t` exactly when `t` is the `n`-th tick of a maximal run of
ticks at or above the threshold: the `n` ticks `t + 1 - n .. t` are all at or
above it, and the run starts there (it is the first tick, or the tick before is
below the threshold). -/
theorem C3_debounce (p : Provider) (n : Nat) (hn : 1 ≤ n)
    (hw : p.settings.warningTime = (n : Int)) (hc : p.notifications = some (n : Int))
    (vals : List ℚ) (t : Nat) (ht : t < vals.length) :
    (warningTicks p vals)[t]? = some true ↔
      (n ≤ t + 1
        ∧ (∀ i, t + 1 - n ≤ i → i ≤ t → ∃ v, vals[i]? = some v ∧ p.settings.warningValue ≤ v)
        ∧ (t + 1 = n ∨ ∃ v, vals[t - n]? = some v ∧ v < p.settings.warningValue)) := by
  rw [warningTicks_fired_iff n hn vals p 0 t hw (by simpa using hc) ht]
  constructor
  · rintro ⟨hwin, hend⟩
    refine ⟨?_, ?_, ?_⟩
    · rcases hend with ⟨h1, _⟩ | ⟨h1, _⟩ <;> omega
    · intro i h1 h2
      exact hwin i h2 (by omega)
    · rcases hend with ⟨_, h2⟩ | ⟨_, h2⟩
      · exact Or.inr h2
      · exact Or.inl (by omega)
  · rintro ⟨hle, hwin, hend⟩
    refine ⟨?_, ?_⟩
    · intro i h1 h2
      exact hwin i (by omega) h1
    · rcases hend with h | h
      · exact Or.inr ⟨by omega, by omega⟩
      · by_cases hnt : t + 1 = n
        · exact Or.inr ⟨by omega, by omega⟩
        · exact Or.inl ⟨by omega, h⟩

/-- C3 at `warningTime = 3`, threshold `80`: four ticks at `90` fire once, on
the third tick. -/
theorem C3_debounce_witness :
    warningTicks (onSettingsChanged (freshProvider ⟨1, 1000, "avg", true, 3, 80, "binary", "binary-byte"⟩))
        [90, 90, 90, 90] = [false, false, true, false]
      ∧ ((warningTicks (onSettingsChanged
            (freshProvider ⟨1, 1000, "avg", true, 3, 80, "binary", "binary-byte"⟩))
            [90, 90, 90, 90])[2]? = some true ↔
          (3 ≤ 2 + 1
            ∧ (∀ i, 2 + 1 - 3 ≤ i → i ≤ 2 →
                ∃ v, ([90, 90, 90, 90] : List ℚ)[i]? = some v ∧ (80 : ℚ) ≤ v)
            ∧ (2 + 1 = 3 ∨ ∃ v, ([90, 90, 90, 90] : List ℚ)[2 - 3]? = some v ∧ v < (80 : ℚ)))) :=
  ⟨by decide!,
   C3_debounce (onSettingsChanged (freshProvider ⟨1, 1000, "avg", true, 3, 80, "binary", "binary-byte"⟩))
     3 (by decide) rfl rfl [90, 90, 90, 90] 2 (by decide)⟩

/-- C4: the source line indices recorded by `SensorDataProvider.init` are, in
increasing order, exactly the indices of the lines that match the data matcher
and whose most recent `Adapter:` header at or before them exists and does not
contain `virtual` (case-insensitively). -/
theorem C4_adapter_scan (settings : Settings) (dm : DataMatcher) (lines : List String) :
    ∃ p, init settings dm (some lines) = Except.ok p
      ∧ p.sensors = (List.range lines.length).filter (recordsSensor dm lines) := by
  obtain ⟨p, hp, hs, _⟩ := init_some_spec settings dm lines
  exact ⟨p, hp, hs⟩

/-- C4 on the four-line example: only the line of the ISA section, at index 3,
is recorded. -/
theorem C4_adapter_scan_witness :
    ∃ p, init ⟨1, 1000, "avg", false, 3, 80, "binary", "binary-byte"⟩ thermalDataMatcher
          (some ["Adapter: Virtual", "core 0: +40.0°C", "Adapter: ISA", "core 0: +45.0°C (crit)"])
        = Except.ok p ∧ p.sensors = [3] := by
  obtain ⟨p, hp, hs⟩ := C4_adapter_scan ⟨1, 1000, "avg", false, 3, 80, "binary", "binary-byte"⟩
    thermalDataMatcher
    ["Adapter: Virtual", "core 0: +40.0°C", "Adapter: ISA", "core 0: +45.0°C (crit)"]
  exact ⟨p, hp, hs.trans (by decide)⟩

/-- C7: `SensorDataProvider.init` never throws and sets `unavailable` exactly
when it recorded no sensor, which is when no lines were supplied or no supplied
line matches the data matcher inside a non-virtual adapter section; and
`Module.init` copies the flag of an unavailable provider and builds neither menu
item, tooltip nor panel widget, while for an available provider it builds them. -/
theorem C7_unavailable (settings : Settings) (dm : DataMatcher)
    (sensorLines : Option (List String)) (hasPanel : Bool) :
    ∃ p, init settings dm sensorLines = Except.ok p
      ∧ (p.unavailable = true ↔ p.sensors = [])
      ∧ (p.sensors = [] ↔
          (sensorLines = none ∨
            ∃ lines, sensorLines = some lines
              ∧ ∀ i, i < lines.length → recordsSensor dm lines i = false))
      ∧ ∃ m, Module.init settings dm hasPanel sensorLines = Except.ok m
          ∧ m.dataProvider = p
          ∧ (p.unavailable = true →
              m.unavailable = true ∧ m.menuItem = false ∧ m.tooltip = false
                ∧ m.panelWidget = false)
          ∧ (p.unavailable = false →
              m.unavailable = false ∧ m.menuItem = true ∧ m.tooltip = true
                ∧ m.panelWidget = hasPanel) := by
  have hmod : ∀ p, init settings dm sensorLines = Except.ok p →
      ∃ m, Module.init settings dm hasPanel sensorLines = Except.ok m
        ∧ m.dataProvider = p
        ∧ (p.unavailable = true →
            m.unavailable = true ∧ m.menuItem = false ∧ m.tooltip = false
              ∧ m.panelWidget = false)
        ∧ (p.unavailable = false →
            m.unavailable = false ∧ m.menuItem = true ∧ m.tooltip = true
              ∧ m.panelWidget = hasPanel) := by
    intro p hp
    unfold Module.init
    rw [hp]
    dsimp only
    cases hu : p.unavailable
    · exact ⟨_, rfl, rfl, by simp, by simp⟩
    · exact ⟨_, rfl, rfl, by simp, by simp⟩
  cases sensorLines with
  | none =>
    exact ⟨_, rfl, by simp [freshProvider], by simp [freshProvider], hmod _ rfl⟩
  | some lines =>
    obtain ⟨p, hp, hs, _, hun, _⟩ := init_some_spec settings dm lines
    refine ⟨p, hp, ?_, ?_, hmod p hp⟩
    · rw [hun]
      simp
    · rw [hs, List.filter_eq_nil_iff]
      simp only [List.mem_range, Bool.not_eq_true, false_or, Option.some.injEq, exists_eq_left',
        reduceCtorEq]

/-- C9: for every value `v ≤ 0` and both settings of the binary flag,
`determinatePrefix` returns `(v, "")`. -/
theorem C9_nonpositive (v : ℚ) (binary : Bool) (hv : v ≤ 0) :
    determinatePrefix v binary = (v, some "") := by
  unfold determinatePrefix determinatePrefixWith
  rw [if_pos hv]

/-- C9 at `v = -5` in binary mode. -/
theorem C9_nonpositive_witness : determinatePrefix (-5) true = (-5, some "") :=
  C9_nonpositive (-5) true (by norm_num)

/-- C8 fails as stated: no clamp is applied to the exponent. For `v = 1/2` in
decimal mode the exponent is `-1`, and the code returns `500` with an
`undefined` unit where the clamped description gives `(1/2, "")`; for
`v = 3 * 2 ^ 89` in binary mode the exponent is `9`, and the code divides by
`1024 ^ 9` and returns `3/2` with the unit `undefinedi`, which is no symbol of
the table. -/
theorem C8_clamp_counterexample :
    determinatePrefix (1 / 2) false = (500, none)
      ∧ determinePrefixClamped (1 / 2) false = (1 / 2, some "")
      ∧ determinatePrefix (3 * 2 ^ 89) true = (3 / 2, some "undefinedi") := by
  refine ⟨by decide!, by decide!, ?_⟩
  have hpos : (0 : ℚ) < 3 * 2 ^ 89 := by positivity
  have hlog : Int.log (sizeMultiplicator true) ((3 : ℚ) * 2 ^ 89) = 9 := by
    have hb := sizeMultiplicator_gt_one true
    have h1 : (9 : Int) ≤ Int.log (sizeMultiplicator true) ((3 : ℚ) * 2 ^ 89) := by
      rw [← Int.zpow_le_iff_le_log hb hpos]
      norm_num [sizeMultiplicator]
    have h2 : Int.log (sizeMultiplicator true) ((3 : ℚ) * 2 ^ 89) < 10 := by
      rw [← Int.lt_zpow_iff_log_lt hb hpos]
      norm_num [sizeMultiplicator]
    omega
  rw [determinatePrefix_of_log _ true 9 hpos hlog (by decide)]
  have hp : prefixAt 9 = none := by decide
  have hj : jsAppend none "i" = "undefinedi" := by decide
  norm_num [sizeMultiplicator, hp, hj]

/-- C8 as amended: for every value `v > 0`, either base and every number
library, let `k` be the exponent the library computes for
`Math.floor(Math.log(v) / Math.log(base))`. Whenever `0 ≤ k ≤ 7`,
`determinatePrefix` returns `(v, "")` when `k = 0` and otherwise
`(v / base ^ k, symbol_k)` with `symbol_k` the `k`-th character of the table
`" KMGTEZY"`, followed by `i` in binary mode. -/
theorem C8_table_lookup (lib : NumberLib) (v : ℚ) (binary : Bool) (hv : 0 < v)
    (h0 : 0 ≤ lib.floorLog v (sizeMultiplicator binary))
    (h7 : lib.floorLog v (sizeMultiplicator binary) ≤ 7) :
    (lib.floorLog v (sizeMultiplicator binary) = 0 →
        determinatePrefixWith lib v binary = (v, some ""))
      ∧ (lib.floorLog v (sizeMultiplicator binary) ≠ 0 →
          ∃ c, PREFIX.data[(lib.floorLog v (sizeMultiplicator binary)).toNat]? = some c
            ∧ determinatePrefixWith lib v binary
                = (v / (sizeMultiplicator binary : ℚ) ^ lib.floorLog v (sizeMultiplicator binary),
                    some (String.singleton c ++ (if binary = true then "i" else "")))) := by
  refine ⟨?_, ?_⟩
  · intro hk
    unfold determinatePrefixWith
    rw [if_neg (not_le.mpr hv)]
    dsimp only
    rw [if_pos hk]
  · intro hk
    have hlen : (lib.floorLog v (sizeMultiplicator binary)).toNat < PREFIX.data.length := by
      have : PREFIX.data.length = 8 := by decide
      rw [this]
      omega
    refine ⟨PREFIX.data[(lib.floorLog v (sizeMultiplicator binary)).toNat], ?_, ?_⟩
    · exact List.getElem?_eq_getElem hlen
    · rw [determinatePrefixWith_of_floorLog lib v binary _ hv rfl hk]
      unfold prefixAt
      rw [if_pos h0, List.getElem?_eq_getElem hlen]
      cases binary <;> simp [jsAppend]

/-- C8 as amended at `v = 1500` in binary mode on the exact library: exponent
`1`, unit `Ki`. -/
theorem C8_table_lookup_witness :
    exactLib.floorLog 1500 (sizeMultiplicator true) = 1
      ∧ determinatePrefixWith exactLib 1500 true = (1500 / (1024 : ℚ) ^ (1 : Int), some "Ki") := by
  have hk : exactLib.floorLog 1500 (sizeMultiplicator true) = 1 := by decide!
  have h := C8_table_lookup exactLib 1500 true (by norm_num) (by rw [hk]; decide)
    (by rw [hk]; decide)
  obtain ⟨c, hc, hd⟩ := h.2 (by rw [hk]; decide)
  rw [hk] at hc hd
  have hcK : c = 'K' := by
    have : PREFIX.data[(1 : Int).toNat]? = some 'K' := by decide
    rw [this] at hc
    exact (Option.some.inj hc).symm
  refine ⟨hk, ?_⟩
  rw [hd, hcK]
  simp [sizeMultiplicator]
  decide

/-- C10 fails as stated: in decimal mode a raw value of `200` is shown as
`200.0 B/s` under the byte unit and as `1.6 Kbit/s` under the bit unit, and
`1.6` is not `8 * 200`. -/
theorem C10_rate_counterexample :
    formatRate exactLib ⟨1, 1000, "avg", false, 3, 80, "binary", "decimal-byte"⟩ 200 true
        = { shown := 200, unit := "B/s", arrow := "\u25B2" }
      ∧ formatRate exactLib ⟨1, 1000, "avg", false, 3, 80, "binary", "decimal-bit"⟩ 200 true
        = { shown := 8 / 5, unit := "Kbit/s", arrow := "\u25B2" }
      ∧ (formatRate exactLib ⟨1, 1000, "avg", false, 3, 80, "binary", "decimal-bit"⟩ 200 true).shown
          ≠ 8 * (formatRate exactLib
              ⟨1, 1000, "avg", false, 3, 80, "binary", "decimal-byte"⟩ 200 true).shown := by
  have h1 : formatRate exactLib ⟨1, 1000, "avg", false, 3, 80, "binary", "decimal-byte"⟩ 200 true
      = { shown := 200, unit := "B/s", arrow := "\u25B2" } := by decide!
  have h2 : formatRate exactLib ⟨1, 1000, "avg", false, 3, 80, "binary", "decimal-bit"⟩ 200 true
      = { shown := 8 / 5, unit := "Kbit/s", arrow := "\u25B2" } := by decide!
  refine ⟨h1, h2, ?_⟩
  rw [h1, h2]
  norm_num

/-- C10 as amended: for every raw byte value `v`, either base and every number
library, the text `formatRate` returns under the bit unit for `v` is the text it
returns under the byte unit of the same base for the raw value `8 * v`, with
`bit/s` in place of `B/s`: the same number shown, the same prefix symbol and the
same arrow. The factor `8` is applied to the raw value, before the prefix is
chosen and the number is rounded. -/
theorem C10_rate_bits (lib : NumberLib) (s : Settings) (binary : Bool) (v : ℚ) (dir : Bool) :
    (formatRate lib { s with rateUnit := rateUnitOf binary true } v dir).shown
        = (formatRate lib { s with rateUnit := rateUnitOf binary false } (v * 8) dir).shown
      ∧ (∃ sym : String,
          (formatRate lib { s with rateUnit := rateUnitOf binary true } v dir).unit
              = sym ++ "bit/s"
            ∧ (formatRate lib { s with rateUnit := rateUnitOf binary false } (v * 8) dir).unit
              = sym ++ "B/s")
      ∧ (formatRate lib { s with rateUnit := rateUnitOf binary true } v dir).arrow
        = (formatRate lib { s with rateUnit := rateUnitOf binary false } (v * 8) dir).arrow := by
  rw [formatRate_parts lib s binary true v dir, formatRate_parts lib s binary false (v * 8) dir]
  simp only [if_true, Bool.false_eq_true, if_false]
  refine ⟨trivial, ⟨(determinatePrefixWith lib (v * 8) binary).2.getD "undefined", ?_, ?_⟩, trivial⟩
  · unfold jsAppend
    rw [String.append_assoc]
    rfl
  · unfold jsAppend
    rw [String.append_assoc]
    rfl

/-- C5: when the lines of the `N ≥ 1` sensors parse to `ds`, `getData` stores
`ds[i]` as the current value of series `i + 1` and appends it to that series
(append, then trim to `graphSteps + 2`), and stores and appends to series `0`
the aggregate: the minimum of `ds` in mode `min`, the maximum in mode `max`, the
arithmetic mean in mode `avg`. -/
theorem C5_getData_saves (dm : DataMatcher) (p : Provider) (result : List String)
    (ds : List ℚ) (hne : ds ≠ []) (hwf : p.history.length = p.sensors.length + 1)
    (hvals : sensorValues dm result p.sensors = ds.map some) :
    ∃ p1 agg, getData dm p result = Except.ok p1
      ∧ (∀ (i : Nat) (d : ℚ), ds[i]? = some d →
          p1.data (i + 1) = some d
            ∧ ∃ h, p.history[i + 1]? = some h
              ∧ p1.history[i + 1]? = some (trim (p.settings.graphSteps + 2) (h ++ [d])))
      ∧ p1.data 0 = some agg
      ∧ (∃ h, p.history[0]? = some h
          ∧ p1.history[0]? = some (trim (p.settings.graphSteps + 2) (h ++ [agg])))
      ∧ (p.settings.mode = "min" → agg ∈ ds ∧ ∀ d ∈ ds, agg ≤ d)
      ∧ (p.settings.mode = "max" → agg ∈ ds ∧ ∀ d ∈ ds, d ≤ agg)
      ∧ (p.settings.mode = "avg" → agg = ds.sum / (ds.length : ℚ)) := by
  have hlen := sensorValues_length dm result p.sensors ds hvals
  cases ds with
  | nil => exact absurd rfl hne
  | cons d0 ds =>
    have hagg := aggregateOf_cons p.settings.mode p.sensors.length d0 ds
    obtain ⟨agg, hA⟩ : ∃ agg : ℚ, agg =
        (if p.settings.mode = "min" then ds.foldl min d0
          else if p.settings.mode = "avg" then (d0 + ds.sum) / (p.sensors.length : ℚ)
          else if p.settings.mode = "max" then ds.foldl max d0
          else d0) := ⟨_, rfl⟩
    rw [← hA] at hagg
    obtain ⟨t1, t2, _, _⟩ := tick_fields p (d0 :: ds) agg
    refine ⟨_, agg, getData_ok dm p result (d0 :: ds) agg hvals hagg, ?_, ?_, ?_, ?_, ?_, ?_⟩
    · intro i d hd
      have hi : i < (d0 :: ds).length := (List.getElem?_eq_some_iff.mp hd).1
      have hi2 : i + 1 < p.history.length := by omega
      refine ⟨?_, p.history[i + 1], List.getElem?_eq_getElem hi2, ?_⟩
      · rw [t1 (i + 1), List.getElem?_cons_succ, hd]
      · rw [t2 (i + 1), List.getElem?_cons_succ, hd, List.getElem?_eq_getElem hi2]
        rfl
    · rw [t1 0]
      rfl
    · have h0 : 0 < p.history.length := by omega
      refine ⟨p.history[0], List.getElem?_eq_getElem h0, ?_⟩
      rw [t2 0, List.getElem?_eq_getElem h0]
      rfl
    · intro hm
      rw [hA, if_pos hm]
      exact foldl_min_spec ds d0
    · intro hm
      have h1 : ¬ (p.settings.mode = "min") := by rw [hm]; decide
      have h2 : ¬ (p.settings.mode = "avg") := by rw [hm]; decide
      rw [hA, if_neg h1, if_neg h2, if_pos hm]
      exact foldl_max_spec ds d0
    · intro hm
      have h1 : ¬ (p.settings.mode = "min") := by rw [hm]; decide
      rw [hA, if_neg h1, if_pos hm, hlen, List.sum_cons]

/-- C5 on two thermal sensors reading `10.0` and `20.0` in mode `avg`: the
aggregate stored as series `0` is `15`. -/
theorem C5_getData_saves_witness :
    ∃ p1 agg,
      getData thermalDataMatcher
          { freshProvider ⟨1, 1000, "avg", false, 3, 80, "binary", "binary-byte"⟩ with
            sensors := [1, 2], history := [[], [], []] }
          ["Adapter: ISA", "a: +10.0°C", "b: +20.0°C"] = Except.ok p1
        ∧ p1.data 1 = some 10 ∧ p1.data 2 = some 20 ∧ p1.data 0 = some agg ∧ agg = 15 := by
  obtain ⟨p1, agg, h1, h2, h3, _, _, _, h7⟩ :=
    C5_getData_saves thermalDataMatcher
      { freshProvider ⟨1, 1000, "avg", false, 3, 80, "binary", "binary-byte"⟩ with
        sensors := [1, 2], history := [[], [], []] }
      ["Adapter: ISA", "a: +10.0°C", "b: +20.0°C"] [10, 20] (by simp) rfl (by decide!)
  refine ⟨p1, agg, h1, (h2 0 10 rfl).1, (h2 1 20 rfl).1, h3, ?_⟩
  rw [h7 rfl]
  norm_num

/-- C6 fails as stated: a provider initialised with two thermal sensors (lines
`1` and `2`) throws a `TypeError` on a tick whose result lacks line `2`, and on
a tick whose line `2` does not match the data matcher. -/
theorem C6_tick_counterexample :
    ∃ p, init ⟨1, 1000, "avg", false, 3, 80, "binary", "binary-byte"⟩ thermalDataMatcher
          (some ["Adapter: ISA", "a: +10.0°C", "b: +20.0°C"]) = Except.ok p
      ∧ getData thermalDataMatcher p ["Adapter: ISA", "a: +10.0°C"]
          = Except.error JSError.typeError
      ∧ getData thermalDataMatcher p ["Adapter: ISA", "a: +10.0°C", "b: N/A"]
          = Except.error JSError.typeError := by
  obtain ⟨p, hp, hs, _⟩ := init_some_spec ⟨1, 1000, "avg", false, 3, 80, "binary", "binary-byte"⟩
    thermalDataMatcher ["Adapter: ISA", "a: +10.0°C", "b: +20.0°C"]
  have hs2 : p.sensors = [1, 2] := hs.trans (by decide)
  refine ⟨p, hp, ?_, ?_⟩
  · apply getData_error
    rw [hs2]
    decide!
  · apply getData_error
    rw [hs2]
    decide!

/-- C6 as amended: a tick throws a `TypeError` as soon as the line of some
sensor is absent from the result or does not match the data matcher; when the
line of every recorded sensor (at least one) is present and matches, the tick
completes and the parsed value of every sensor is stored and pushed to its
series. -/
theorem C6_tick_outcome (dm : DataMatcher) (p : Provider) (result : List String) :
    (none ∈ sensorValues dm result p.sensors →
        getData dm p result = Except.error JSError.typeError)
      ∧ (p.sensors ≠ [] → none ∉ sensorValues dm result p.sensors →
          ∃ p1, getData dm p result = Except.ok p1
            ∧ ∀ (i : Nat) (d : ℚ), (sensorValues dm result p.sensors)[i]? = some (some d) →
                p1.data (i + 1) = some d
                  ∧ p1.history[i + 1]? =
                      pushed (p.settings.graphSteps + 2) p.history[i + 1]? (some d)) := by
  refine ⟨getData_error dm p result, ?_⟩
  intro hne hall
  have hds : ∃ ds : List ℚ, sensorValues dm result p.sensors = ds.map some := by
    refine ⟨(sensorValues dm result p.sensors).filterMap id, ?_⟩
    generalize sensorValues dm result p.sensors = l at hall
    induction l with
    | nil => rfl
    | cons x xs ih =>
      cases x with
      | none => exact absurd (List.mem_cons_self _ _) hall
      | some v =>
        have hxs : none ∉ xs := fun h => hall (List.mem_cons_of_mem _ h)
        rw [List.filterMap_cons_some (by rfl), List.map_cons, ← ih hxs]
  obtain ⟨ds, hvals⟩ := hds
  have hlen := sensorValues_length dm result p.sensors ds hvals
  cases ds with
  | nil =>
    exfalso
    apply hne
    exact List.length_eq_zero.mp (by simpa using hlen)
  | cons d0 ds =>
    have hagg := aggregateOf_cons p.settings.mode p.sensors.length d0 ds
    obtain ⟨agg, hA⟩ : ∃ agg : ℚ, agg =
        (if p.settings.mode = "min" then ds.foldl min d0
          else if p.settings.mode = "avg" then (d0 + ds.sum) / (p.sensors.length : ℚ)
          else if p.settings.mode = "max" then ds.foldl max d0
          else d0) := ⟨_, rfl⟩
    rw [← hA] at hagg
    obtain ⟨t1, t2, _, _⟩ := tick_fields p (d0 :: ds) agg
    refine ⟨_, getData_ok dm p result (d0 :: ds) agg hvals hagg, ?_⟩
    intro i d hd
    rw [hvals, List.getElem?_map] at hd
    have hd2 : (d0 :: ds)[i]? = some d := by
      cases h : (d0 :: ds)[i]? with
      | none => rw [h] at hd; simp at hd
      | some x => rw [h] at hd; simpa using hd
    constructor
    · rw [t1 (i + 1), List.getElem?_cons_succ, hd2]
    · rw [t2 (i + 1), List.getElem?_cons_succ, hd2]

/-- C6 as amended, on one thermal sensor: a result without its line throws, a
result with its line completes. -/
theorem C6_tick_outcome_witness :
    getData thermalDataMatcher
        { freshProvider ⟨1, 1000, "avg", false, 3, 80, "binary", "binary-byte"⟩ with
          sensors := [1], history := [[], []] } ["Adapter: ISA"]
      = Except.error JSError.typeError :=
  (C6_tick_outcome thermalDataMatcher
      { freshProvider ⟨1, 1000, "avg", false, 3, 80, "binary", "binary-byte"⟩ with
        sensors := [1], history := [[], []] } ["Adapter: ISA"]).1 (by decide!)

/-- C2 fails as stated: with two thermal sensors reading `10.0` and `20.0` in
mode `avg`, the aggregate series holds `15` alone after the first tick, while
the tracker holds `min = 10` and `max = 20`, the extrema over all series; and
with one sensor reading `0.5` the aggregate series holds `1/2` alone while the
tracker holds `max = 1`, the value the rescan starts from. -/
theorem C2_tracker_counterexample :
    (∃ p0 p, init ⟨1, 1000, "avg", false, 3, 80, "binary", "binary-byte"⟩ thermalDataMatcher
          (some ["Adapter: ISA", "a: +10.0°C", "b: +20.0°C"]) = Except.ok p0
        ∧ getData thermalDataMatcher p0 ["Adapter: ISA", "a: +10.0°C", "b: +20.0°C"]
            = Except.ok p
        ∧ p.history[0]? = some [15] ∧ p.min = Bound.num 10 ∧ p.max = Bound.num 20)
      ∧ (∃ p0 p, init ⟨1, 1000, "avg", false, 3, 80, "binary", "binary-byte"⟩ thermalDataMatcher
          (some ["Adapter: ISA", "a: +0.5°C"]) = Except.ok p0
        ∧ getData thermalDataMatcher p0 ["Adapter: ISA", "a: +0.5°C"] = Except.ok p
        ∧ p.history[0]? = some [1 / 2] ∧ p.min = Bound.num (1 / 2) ∧ p.max = Bound.num 1) := by
  constructor
  · refine ⟨_, _, rfl, rfl, ?_, ?_, ?_⟩
    · decide!
    · decide!
    · decide!
  · refine ⟨_, _, rfl, rfl, ?_, ?_, ?_⟩
    · decide!
    · decide!
    · decide!

/-- C2 as amended: starting from a freshly initialised provider with at least
one sensor, after every completed tick of a run in which every parsed sensor
value is at least `1`, the tracker's `min` and `max` are the least and the
greatest sample currently retained over all series, the sensor series and the
aggregate series alike. -/
theorem C2_tracker_all_series (settings : Settings) (dm : DataMatcher) (lines : List String)
    (p0 p : Provider) (ticks : List (List String))
    (hinit : init settings dm (some lines) = Except.ok p0)
    (havail : p0.unavailable = false)
    (hticks : ticks ≠ [])
    (hge : ∀ result ∈ ticks, ∀ d : ℚ, some d ∈ sensorValues dm result p0.sensors → 1 ≤ d)
    (hrun : runTicks dm p0 ticks = Except.ok p) :
    ∃ m M : ℚ, p.min = Bound.num m ∧ p.max = Bound.num M
      ∧ (∃ h ∈ p.history, m ∈ h) ∧ (∀ h ∈ p.history, ∀ e ∈ h, m ≤ e)
      ∧ (∃ h ∈ p.history, M ∈ h) ∧ (∀ h ∈ p.history, ∀ e ∈ h, e ≤ M) := by
  obtain ⟨L1, inv, hL1⟩ := runTicks_preserves dm ticks p0 p 0
    (init_inv settings dm lines p0 hinit havail) hge hrun
  have hpos := hL1 hticks
  rcases inv.minOK with ⟨h0, _⟩ | ⟨m, k, hm, _, hmb, h, hh, j, hj, _⟩
  · omega
  · rcases inv.maxOK with ⟨h0, _⟩ | ⟨M, k2, hM, _, hMb, g, hg, j2, hj2, _⟩
    · omega
    · exact ⟨m, M, hm, hM, ⟨h, hh, List.getElem?_mem hj⟩, hmb,
        ⟨g, hg, List.getElem?_mem hj2⟩, hMb⟩

/-- C2 as amended, on two thermal sensors over two ticks reading `10.0`, `20.0`
and then `30.0`, `12.0`. -/
theorem C2_tracker_all_series_witness :
    ∃ p0 p, init ⟨1, 1000, "avg", false, 3, 80, "binary", "binary-byte"⟩ thermalDataMatcher
          (some ["Adapter: ISA", "a: +10.0°C", "b: +20.0°C"]) = Except.ok p0
      ∧ runTicks thermalDataMatcher p0
          [["Adapter: ISA", "a: +10.0°C", "b: +20.0°C"],
           ["Adapter: ISA", "a: +30.0°C", "b: +12.0°C"]] = Except.ok p
      ∧ ∃ m M : ℚ, p.min = Bound.num m ∧ p.max = Bound.num M
        ∧ (∃ h ∈ p.history, m ∈ h) ∧ (∀ h ∈ p.history, ∀ e ∈ h, m ≤ e)
        ∧ (∃ h ∈ p.history, M ∈ h) ∧ (∀ h ∈ p.history, ∀ e ∈ h, e ≤ M) := by
  refine ⟨_, _, rfl, by with_unfolding_all rfl, ?_⟩
  refine C2_tracker_all_series ⟨1, 1000, "avg", false, 3, 80, "binary", "binary-byte"⟩
    thermalDataMatcher ["Adapter: ISA", "a: +10.0°C", "b: +20.0°C"] _ _
    [["Adapter: ISA", "a: +10.0°C", "b: +20.0°C"],
     ["Adapter: ISA", "a: +30.0°C", "b: +12.0°C"]] rfl rfl (by simp) ?_
    (by with_unfolding_all rfl)
  intro result hr d hd
  have h1 : sensorValues thermalDataMatcher ["Adapter: ISA", "a: +10.0°C", "b: +20.0°C"] [1, 2]
      = [some 10, some 20] := by decide!
  have h2 : sensorValues thermalDataMatcher ["Adapter: ISA", "a: +30.0°C", "b: +12.0°C"] [1, 2]
      = [some 30, some 12] := by decide!
  simp only [List.mem_cons, List.mem_singleton, List.not_mem_nil, or_false] at hr
  rcases hr with rfl | rfl
  · have hd2 : some d ∈ [some (10 : ℚ), some 20] := h1 ▸ hd
    simp only [List.mem_cons, Option.some.injEq, List.not_mem_nil, or_false] at hd2
    rcases hd2 with rfl | rfl <;> norm_num
  · have hd2 : some d ∈ [some (30 : ℚ), some 12] := h2 ▸ hd
    simp only [List.mem_cons, Option.some.injEq, List.not_mem_nil, or_false] at hd2
    rcases hd2 with rfl | rfl <;> norm_num

/-- C11, the code at the failing input: with `thermalUnit = "fahrenheit"` a
reading of `100` degrees Celsius is shown as the number `100`, not as the
converted `100 * 1.8 + 32 = 212`, next to the Fahrenheit glyph `U+2109`; the
same happens for every reading, and for `thermalUnit = true` as well. -/
theorem C11_formatThermal_fahrenheit :
    (formatThermal (UnitFlag.str "fahrenheit") 100).number = 100
      ∧ (formatThermal (UnitFlag.str "fahrenheit") 100).unit = "℉"
      ∧ (100 : ℚ) * 1.8 + 32 = 212
      ∧ (∀ c : ℚ, (formatThermal (UnitFlag.str "fahrenheit") c).number = c
          ∧ (formatThermal (UnitFlag.str "fahrenheit") c).unit = "℉")
      ∧ (∀ c : ℚ, (formatThermal (UnitFlag.bool true) c).number = c
          ∧ (formatThermal (UnitFlag.bool true) c).unit = "℉") := by
  have h1 : (UnitFlag.str "fahrenheit").truthy = true := by decide
  have h2 : (UnitFlag.bool true).truthy = true := rfl
  have g1 : ∀ c : ℚ, (formatThermal (UnitFlag.str "fahrenheit") c).number = c
      ∧ (formatThermal (UnitFlag.str "fahrenheit") c).unit = "℉" := by
    intro c
    refine ⟨?_, rfl⟩
    unfold formatThermal
    simp only [h1, if_true]
  have g2 : ∀ c : ℚ, (formatThermal (UnitFlag.bool true) c).number = c
      ∧ (formatThermal (UnitFlag.bool true) c).unit = "℉" := by
    intro c
    refine ⟨?_, rfl⟩
    unfold formatThermal
    simp only [h2, if_true]
  exact ⟨(g1 100).1, (g1 100).2, by norm_num, g1, g2⟩

/-- C13, the code at the failing input: for `1000 ^ 5` in decimal mode the
exponent is `5` and the returned symbol is `E`, the sixth character of
`" KMGTEZY"`, where the prefix of order `5` is `P`; in binary mode `1024 ^ 5`
gives `Ei`; the orders `6` and `7` give `Z` and `Y`; and `formatBytes` prints
the unit `EB` for `1000 ^ 5` bytes. -/
theorem C13_prefix_table_skips_peta :
    determinatePrefix ((1000 : ℚ) ^ (5 : Int)) false = (1, some "E")
      ∧ determinatePrefix ((1024 : ℚ) ^ (5 : Int)) true = (1, some "Ei")
      ∧ determinatePrefix ((1000 : ℚ) ^ (6 : Int)) false = (1, some "Z")
      ∧ determinatePrefix ((1000 : ℚ) ^ (7 : Int)) false = (1, some "Y")
      ∧ (formatBytes ⟨1, 1000, "avg", false, 3, 80, "decimal", "decimal-byte"⟩
          ((1000 : ℚ) ^ (5 : Int))).unit = "EB"
      ∧ PREFIX.data = [' ', 'K', 'M', 'G', 'T', 'E', 'Z', 'Y'] := by
  have hdec : ∀ k : Int, k ≠ 0 →
      determinatePrefix ((1000 : ℚ) ^ k) false = (1, prefixAt k) := by
    intro k hk
    have hlog : Int.log (sizeMultiplicator false) ((1000 : ℚ) ^ k) = k := by
      have h := Int.log_zpow (R := ℚ) (sizeMultiplicator_gt_one false) k
      simpa [sizeMultiplicator] using h
    have hpos : (0 : ℚ) < (1000 : ℚ) ^ k := by positivity
    rw [determinatePrefix_of_log _ false k hpos hlog hk]
    have hne : ((1000 : ℚ) ^ k) ≠ 0 := ne_of_gt hpos
    simp [sizeMultiplicator, div_self hne]
  have hbin : ∀ k : Int, k ≠ 0 →
      determinatePrefix ((1024 : ℚ) ^ k) true = (1, some (jsAppend (prefixAt k) "i")) := by
    intro k hk
    have hlog : Int.log (sizeMultiplicator true) ((1024 : ℚ) ^ k) = k := by
      have h := Int.log_zpow (R := ℚ) (sizeMultiplicator_gt_one true) k
      simpa [sizeMultiplicator] using h
    have hpos : (0 : ℚ) < (1024 : ℚ) ^ k := by positivity
    rw [determinatePrefix_of_log _ true k hpos hlog hk]
    have hne : ((1024 : ℚ) ^ k) ≠ 0 := ne_of_gt hpos
    simp [sizeMultiplicator, div_self hne]
  refine ⟨?_, ?_, ?_, ?_, ?_, by decide⟩
  · rw [hdec 5 (by decide)]
    decide
  · rw [hbin 5 (by decide)]
    decide
  · rw [hdec 6 (by decide)]
    decide
  · rw [hdec 7 (by decide)]
    decide
  · have hb : decide (("decimal" : String) = "binary") = false := by decide
    unfold formatBytes
    simp only [hb]
    rw [hdec 5 (by decide)]
    decide

/-- C12, the code at the failing input: the line `Core 12: +45.0°C` is
recorded under the name `Core 12` with colour group `2`, which is
`(1 mod 4) + 1` for the first digit alone, where `(12 mod 4) + 1` is `1`; the
line `core 0: +45.0°C (crit)` is recorded under the name `core 0` with colour
group `1`. -/
theorem C12_core_label_first_digit :
    (∃ p, parseSensorLine (freshProvider ⟨1, 1000, "avg", false, 3, 80, "binary", "binary-byte"⟩)
          "Core 12: +45.0°C" 1 = Except.ok p
        ∧ p.sensorNames = ["Core 12"] ∧ p.colorRefs = [some 2] ∧ p.sensors = [1])
      ∧ 12 % 4 + 1 = 1
      ∧ (∃ p, parseSensorLine (freshProvider ⟨1, 1000, "avg", false, 3, 80, "binary", "binary-byte"⟩)
          "core 0: +45.0°C (crit)" 3 = Except.ok p
        ∧ p.sensorNames = ["core 0"] ∧ p.colorRefs = [some 1] ∧ p.sensors = [3]) := by
  refine ⟨⟨_, rfl, by decide, by decide, by decide⟩, by decide, ⟨_, rfl, by decide, by decide, by decide⟩⟩

/-- C14: starting from a freshly initialised provider with `N ≥ 1` sensors, for
every sequence of ticks whose sensor lines all parse to values of at least `1`,
each `getData` call completes and leaves all series at one common length, with
`min` the smallest and `max` the largest sample retained across all series, and
with `minIndex` and `maxIndex` not beyond the position of a retained occurrence
of the tracked extremum, so that the countdown reaches the rescan no later than
the tick that evicts it. -/
theorem C14_tracker_invariant (settings : Settings) (dm : DataMatcher) (lines : List String)
    (p0 : Provider) (ticks : List (List String))
    (hinit : init settings dm (some lines) = Except.ok p0)
    (hN : 1 ≤ p0.sensors.length)
    (hvals : ∀ result ∈ ticks, ∀ v ∈ sensorValues dm result p0.sensors,
        ∃ d : ℚ, v = some d ∧ 1 ≤ d) :
    ∀ n, 1 ≤ n → n ≤ ticks.length →
      ∃ p, runTicks dm p0 (ticks.take n) = Except.ok p
        ∧ (∃ L, 1 ≤ L ∧ ∀ h ∈ p.history, h.length = L)
        ∧ ∃ (m M : ℚ) (kmin kmax : Int),
            p.min = Bound.num m ∧ p.max = Bound.num M
              ∧ p.minIndex = some kmin ∧ p.maxIndex = some kmax
              ∧ (∀ h ∈ p.history, ∀ e ∈ h, m ≤ e ∧ e ≤ M)
              ∧ (∃ h ∈ p.history, ∃ j : Nat, h[j]? = some m ∧ kmin ≤ (j : Int))
              ∧ (∃ h ∈ p.history, ∃ j : Nat, h[j]? = some M ∧ kmax ≤ (j : Int)) := by
  intro n hn1 hn2
  have hne : p0.sensors ≠ [] := by
    intro h0
    rw [h0] at hN
    simp at hN
  have havail : p0.unavailable = false := by
    obtain ⟨q, hq, _, _, hun, _⟩ := init_some_spec settings dm lines
    rw [hinit] at hq
    simp only [Except.ok.injEq] at hq
    subst hq
    rw [hun]
    simp [hne]
  have hsub : ∀ result ∈ ticks.take n, result ∈ ticks := fun r hr => List.mem_of_mem_take hr
  have hall : ∀ result ∈ ticks.take n, none ∉ sensorValues dm result p0.sensors := by
    intro r hr hmem
    obtain ⟨d, hd, _⟩ := hvals r (hsub r hr) none hmem
    cases hd
  have hge : ∀ result ∈ ticks.take n, ∀ d : ℚ,
      some d ∈ sensorValues dm result p0.sensors → 1 ≤ d := by
    intro r hr d hmem
    obtain ⟨d1, hd, hle⟩ := hvals r (hsub r hr) (some d) hmem
    cases hd
    exact hle
  have htake : ticks.take n ≠ [] := by
    intro h0
    have := congrArg List.length h0
    rw [List.length_take] at this
    simp only [List.length_nil] at this
    omega
  obtain ⟨p, hrun⟩ := runTicks_total dm (ticks.take n) p0 hne hall
  obtain ⟨L1, inv, hL1⟩ := runTicks_preserves dm (ticks.take n) p0 p 0
    (init_inv settings dm lines p0 hinit havail) hge hrun
  have hpos := hL1 htake
  refine ⟨p, hrun, ⟨L1, hpos, inv.uniform⟩, ?_⟩
  rcases inv.minOK with ⟨h0, _⟩ | ⟨m, k, hm, hk, hmb, hmw⟩
  · omega
  · rcases inv.maxOK with ⟨h0, _⟩ | ⟨M, k2, hM, hk2, hMb, hMw⟩
    · omega
    · exact ⟨m, M, k, k2, hm, hM, hk, hk2,
        fun h hh e he => ⟨hmb h hh e he, hMb h hh e he⟩, hmw, hMw⟩

/-- C14 on two thermal sensors with `graphSteps = 0` (two samples retained)
over three ticks: after the third tick, which evicts the samples of the first,
every series holds two samples, and `min = 12`, `max = 30` are the extrema of
the retained samples. -/
theorem C14_tracker_invariant_witness :
    ∃ p0 p, init ⟨0, 1000, "max", false, 3, 80, "binary", "binary-byte"⟩ thermalDataMatcher
          (some ["Adapter: ISA", "a: +10.0°C", "b: +20.0°C"]) = Except.ok p0
      ∧ runTicks thermalDataMatcher p0
          ([["Adapter: ISA", "a: +10.0°C", "b: +20.0°C"],
            ["Adapter: ISA", "a: +30.0°C", "b: +12.0°C"],
            ["Adapter: ISA", "a: +15.0°C", "b: +16.0°C"]].take 3) = Except.ok p
      ∧ p.history = [[30, 16], [30, 15], [12, 16]]
      ∧ p.min = Bound.num 12 ∧ p.max = Bound.num 30
      ∧ (∃ L, 1 ≤ L ∧ ∀ h ∈ p.history, h.length = L) := by
  have hv : ∀ result ∈ [["Adapter: ISA", "a: +10.0°C", "b: +20.0°C"],
        ["Adapter: ISA", "a: +30.0°C", "b: +12.0°C"],
        ["Adapter: ISA", "a: +15.0°C", "b: +16.0°C"]],
      ∀ v ∈ sensorValues thermalDataMatcher result [1, 2], ∃ d : ℚ, v = some d ∧ 1 ≤ d := by
    have h1 : sensorValues thermalDataMatcher ["Adapter: ISA", "a: +10.0°C", "b: +20.0°C"]
        [1, 2] = [some 10, some 20] := by decide!
    have h2 : sensorValues thermalDataMatcher ["Adapter: ISA", "a: +30.0°C", "b: +12.0°C"]
        [1, 2] = [some 30, some 12] := by decide!
    have h3 : sensorValues thermalDataMatcher ["Adapter: ISA", "a: +15.0°C", "b: +16.0°C"]
        [1, 2] = [some 15, some 16] := by decide!
    intro result hr v hmem
    simp only [List.mem_cons, List.mem_singleton, List.not_mem_nil, or_false] at hr
    rcases hr with rfl | rfl | rfl
    · rw [h1] at hmem
      simp only [List.mem_cons, List.not_mem_nil, or_false] at hmem
      rcases hmem with rfl | rfl
      · exact ⟨10, rfl, by norm_num⟩
      · exact ⟨20, rfl, by norm_num⟩
    · rw [h2] at hmem
      simp only [List.mem_cons, List.not_mem_nil, or_false] at hmem
      rcases hmem with rfl | rfl
      · exact ⟨30, rfl, by norm_num⟩
      · exact ⟨12, rfl, by norm_num⟩
    · rw [h3] at hmem
      simp only [List.mem_cons, List.not_mem_nil, or_false] at hmem
      rcases hmem with rfl | rfl
      · exact ⟨15, rfl, by norm_num⟩
      · exact ⟨16, rfl, by norm_num⟩
  have main : ∀ p0 p : Provider,
      init ⟨0, 1000, "max", false, 3, 80, "binary", "binary-byte"⟩ thermalDataMatcher
          (some ["Adapter: ISA", "a: +10.0°C", "b: +20.0°C"]) = Except.ok p0 →
      runTicks thermalDataMatcher p0
          ([["Adapter: ISA", "a: +10.0°C", "b: +20.0°C"],
            ["Adapter: ISA", "a: +30.0°C", "b: +12.0°C"],
            ["Adapter: ISA", "a: +15.0°C", "b: +16.0°C"]].take 3) = Except.ok p →
      ∃ L, 1 ≤ L ∧ ∀ h ∈ p.history, h.length = L := by
    intro p0 p hinit hrun
    have hs : p0.sensors = [1, 2] := by
      obtain ⟨q, hq, hsq, _⟩ := init_some_spec
        ⟨0, 1000, "max", false, 3, 80, "binary", "binary-byte"⟩ thermalDataMatcher
        ["Adapter: ISA", "a: +10.0°C", "b: +20.0°C"]
      rw [hinit] at hq
      simp only [Except.ok.injEq] at hq
      subst hq
      exact hsq.trans (by decide)
    obtain ⟨p1, hrun1, hL, _⟩ := C14_tracker_invariant
      ⟨0, 1000, "max", false, 3, 80, "binary", "binary-byte"⟩ thermalDataMatcher
      ["Adapter: ISA", "a: +10.0°C", "b: +20.0°C"] p0
      [["Adapter: ISA", "a: +10.0°C", "b: +20.0°C"],
       ["Adapter: ISA", "a: +30.0°C", "b: +12.0°C"],
       ["Adapter: ISA", "a: +15.0°C", "b: +16.0°C"]] hinit (by rw [hs]; decide)
      (by rw [hs]; exact hv) 3 (by decide) (by decide)
    rw [hrun] at hrun1
    simp only [Except.ok.injEq] at hrun1
    subst hrun1
    exact hL
  refine ⟨_, _, rfl, by with_unfolding_all rfl, ?_, ?_, ?_, main _ _ rfl (by with_unfolding_all rfl)⟩
  · decide!
  · decide!
  · decide!

end SystemMonitor
